import Mathlib

/-!
# goval-dictionary, package `db`

A shallow embedding of `db/db.go`: version normalisation
(`formatFamilyAndOSVer`), chunking (`chunkSlice`), the package filter
(`filterByRedHatMajor`) and the construction of a driver (`NewDB`).

* Go strings are modelled by their sequence of code points (`GoString`).
  The code splits at `'.'` and at white space, which are single code points,
  and looks for substrings; on well-formed UTF-8 a substring of bytes is a
  substring of code points, so working on code points agrees with Go.
* Go's `int` is the 64-bit two's complement integer: it is modelled by `Int`,
  and every addition the code performs is followed by `wrapInt`.
* A run-time panic (index or slice bound out of range, method call on a nil
  interface) is the `error` side of `Except Panic`; a Go `error` return value is
  an `Option GoError`.
* The goroutine of `chunkSlice` is modelled by the sequence of values it sends
  on its channel, together with a flag that says whether the channel has been
  closed.
* The methods of the drivers are not in `db/db.go`: they are a parameter
  (`Methods`), state transformers on an arbitrary state of the world, and
  `NewDB` records the lifecycle calls it makes.
-/

namespace GovalDictionary

/-! ## Go run time -/

/-- A Go string, as the list of its code points. -/
abbrev GoString := List Char

/-- Run-time panics the code of this package can raise. -/
inductive Panic where
  /-- `index out of range [index] with length length` -/
  | indexOutOfRange (index length : Nat)
  /-- `slice bounds out of range [:high] with capacity capacity` -/
  | sliceBoundsOutOfRange (high capacity : Nat)
  /-- `invalid memory address or nil pointer dereference`: a method call on a
  nil interface value -/
  | nilPointerDereference
  deriving DecidableEq, Repr

/-- A Go `error` value: a message, and the wrapped cause when the message was
formatted with `%w`. -/
inductive GoError where
  | new (msg : GoString)
  | wrap (msg : GoString) (cause : GoError)
  deriving DecidableEq, Repr

/-- The chain of an error: the error itself, then what `Unwrap` gives,
repeatedly. -/
def GoError.chain : GoError → List GoError
  | .new msg => [.new msg]
  | .wrap msg cause => .wrap msg cause :: cause.chain

deriving instance DecidableEq for Except

/-- Number of bits of Go's `int` on the 64-bit platforms. -/
def intBits : Nat := 64

/-- Largest value of Go's `int`. -/
def maxInt : Int := 2 ^ (intBits - 1) - 1

/-- Smallest value of Go's `int`. -/
def minInt : Int := -(2 ^ (intBits - 1))

/-- Two's complement wrap-around of a mathematical integer into Go's `int`. -/
def wrapInt (x : Int) : Int :=
  (x + 2 ^ (intBits - 1)) % 2 ^ intBits - 2 ^ (intBits - 1)

/-- The expression `xs[i]`: panics when `i` is not below the length. -/
def index {α : Type} (xs : List α) (i : Nat) : Except Panic α :=
  match xs.get? i with
  | some x => .ok x
  | none => .error (.indexOutOfRange i xs.length)

/-- The expression `xs[:high]` on a slice whose capacity is its length. -/
def sliceTo {α : Type} (xs : List α) (high : Nat) : Except Panic (List α) :=
  if high ≤ xs.length then .ok (xs.take high)
  else .error (.sliceBoundsOutOfRange high xs.length)

/-! ## `chunkSlice` -/

/-- IndexChunk has a starting point and an ending point for Chunk. -/
structure IndexChunk where
  From : Int
  To : Int
  deriving DecidableEq, Repr

/-- The body of the loop of `chunkSlice` at loop counter `i`: the chunk that
is sent on the channel. -/
def chunkAt (length chunkSize i : Int) : IndexChunk :=
  let idx : IndexChunk := ⟨i, wrapInt (i + chunkSize)⟩
  if length < idx.To then { idx with To := length } else idx

/-- The goroutine of `chunkSlice`, started with loop counter `i` and run for at
most `fuel` iterations of `for ...; i < length; i += chunkSize`. The result is
the list of chunks sent on the channel, in order, and whether the loop has
ended, which is when the deferred `close(ch)` runs. -/
def chunkLoop (length chunkSize : Int) : Nat → Int → List IndexChunk × Bool
  | 0, i => ([], decide (¬ i < length))
  | fuel + 1, i =>
    if i < length then
      let rest := chunkLoop length chunkSize fuel (wrapInt (i + chunkSize))
      (chunkAt length chunkSize i :: rest.1, rest.2)
    else ([], true)

/-- The channel returned by `chunkSlice(length, chunkSize)`, observed after at
most `fuel` iterations of the producer: the chunks received and whether the
channel is closed. -/
def chunkSlice (length chunkSize : Int) (fuel : Nat) : List IndexChunk × Bool :=
  chunkLoop length chunkSize fuel 0

/-- The quotient `a / b` rounded up, for `b > 0`. -/
def ceilDiv (a b : Int) : Int := (a + b - 1) / b

/-! ## Standard library: package `strings` -/

/-- The function `unicode.IsSpace`: the code points with the Unicode property
White_Space. -/
def isSpace (r : Char) : Bool :=
  let n := r.toNat
  (9 ≤ n && n ≤ 13) || n == 32 || n == 0x85 || n == 0xA0 || n == 0x1680 ||
    (0x2000 ≤ n && n ≤ 0x200A) || n == 0x2028 || n == 0x2029 || n == 0x202F ||
    n == 0x205F || n == 0x3000

/-- The function `strings.Split(s, sep)` for a separator `sep` of one code
point: the pieces of `s` between the occurrences of `sep`, the empty pieces
included. The result has one piece more than `s` has separators, so it is never
empty. -/
def Split : GoString → Char → List GoString
  | [], _ => [[]]
  | c :: cs, sep =>
    if c = sep then [] :: Split cs sep
    else
      match Split cs sep with
      | [] => [[c]]
      | piece :: pieces => (c :: piece) :: pieces

/-- The function `strings.Join(elems, sep)`. -/
def Join : List GoString → GoString → GoString
  | [], _ => []
  | [a], _ => a
  | a :: b :: rest, sep => a ++ sep ++ Join (b :: rest) sep

/-- The scanning loop of `strings.Fields`: `cur` holds the code points of the
field being read, last one first. -/
def fieldsLoop : GoString → GoString → List GoString
  | [], cur => if cur = [] then [] else [cur.reverse]
  | c :: cs, cur =>
    if isSpace c then
      if cur = [] then fieldsLoop cs [] else cur.reverse :: fieldsLoop cs []
    else fieldsLoop cs (c :: cur)

/-- The function `strings.Fields(s)`: the maximal runs of code points of `s`
that are not white space; empty when `s` holds white space only. -/
def Fields (s : GoString) : List GoString := fieldsLoop s []

/-! ## Package `config`: the family names -/

/-- The string constants of package `config` that `formatFamilyAndOSVer`
switches on. The package is not part of the sources at hand, so the constants
are a parameter of the embedding. -/
structure Config where
  Debian : GoString
  Ubuntu : GoString
  Raspbian : GoString
  RedHat : GoString
  CentOS : GoString
  Oracle : GoString
  Amazon : GoString
  Alpine : GoString
  Fedora : GoString
  OpenSUSE : GoString
  OpenSUSELeap : GoString
  SUSEEnterpriseDesktop : GoString
  SUSEEnterpriseServer : GoString

/-- The thirteen family names, in the order of the cases of the switch. -/
def Config.families (c : Config) : List GoString :=
  [c.Debian, c.Ubuntu, c.Raspbian, c.RedHat, c.CentOS, c.Oracle, c.Amazon,
   c.Alpine, c.Fedora, c.OpenSUSE, c.OpenSUSELeap, c.SUSEEnterpriseDesktop,
   c.SUSEEnterpriseServer]

/-- The family names a normalised key can carry: all of them but the two
aliases, raspbian and centos. -/
def Config.canonicalFamilies (c : Config) : List GoString :=
  [c.Debian, c.Ubuntu, c.RedHat, c.Oracle, c.Amazon, c.Alpine, c.Fedora, c.OpenSUSE,
   c.OpenSUSELeap, c.SUSEEnterpriseDesktop, c.SUSEEnterpriseServer]

/-- The constants are pairwise different: Go rejects a switch with two equal
constant cases. -/
def Config.Distinct (c : Config) : Prop :=
  c.families.Nodup

instance (c : Config) : Decidable c.Distinct := by
  unfold Config.Distinct; infer_instance

/-- The constants are pairwise different and none is the empty string. -/
def Config.WellFormed (c : Config) : Prop :=
  c.Distinct ∧ [] ∉ c.families

instance (c : Config) : Decidable c.WellFormed := by
  unfold Config.WellFormed; infer_instance

/-- Modelled from the spec: the constants of package `config`, which is not
among the sources; the values are the tags of the spec's `OSFamily`. -/
def specConfig : Config where
  Debian := "debian".toList
  Ubuntu := "ubuntu".toList
  Raspbian := "raspbian".toList
  RedHat := "redhat".toList
  CentOS := "centos".toList
  Oracle := "oracle".toList
  Amazon := "amazon".toList
  Alpine := "alpine".toList
  Fedora := "fedora".toList
  OpenSUSE := "opensuse".toList
  OpenSUSELeap := "opensuse-leap".toList
  SUSEEnterpriseDesktop := "suse-desktop".toList
  SUSEEnterpriseServer := "suse-server".toList

/-! ## Version normalisation -/

/-- Source: `func major(osVer string) (majorVersion string)`. -/
def major (osVer : GoString) : Except Panic GoString :=
  index (Split osVer '.') 0

/-- Source: `func majorDotMinor(osVer string) (majorMinorVersion string)`. -/
def majorDotMinor (osVer : GoString) : Except Panic GoString :=
  let ss := Split osVer '.'
  if ss.length < 3 then .ok osVer
  else do
    let firstTwo ← sliceTo ss 2
    .ok (Join firstTwo ".".toList)

/-- Source: `getAmazonLinuxVer returns AmazonLinux 1, 2, 2022`. -/
def getAmazonLinuxVer (osVersion : GoString) : Except Panic GoString := do
  let ss := Fields osVersion
  if (← index ss 0) = "2022".toList then
    return "2022".toList
  if (← index ss 0) = "2".toList then
    return "2".toList
  return "1".toList

/-- The error of the default case of `formatFamilyAndOSVer`. -/
def unknownFamilyError (family : GoString) : GoError :=
  .new ("Failed to detect family. err: unknown os family(".toList ++ family ++ ")".toList)

/-- Source: `func formatFamilyAndOSVer(family, osVer string) (string, string, error)`.
The cases of the switch are tried from the top. -/
def formatFamilyAndOSVer (c : Config) (family osVer : GoString) :
    Except Panic (GoString × GoString × Option GoError) :=
  if family = c.Debian then do
    let osVer ← major osVer
    .ok (family, osVer, none)
  else if family = c.Ubuntu then do
    let osVer ← major osVer
    .ok (family, osVer, none)
  else if family = c.Raspbian then do
    let family := c.Debian
    let osVer ← major osVer
    .ok (family, osVer, none)
  else if family = c.RedHat then do
    let osVer ← major osVer
    .ok (family, osVer, none)
  else if family = c.CentOS then do
    let family := c.RedHat
    let osVer ← major osVer
    .ok (family, osVer, none)
  else if family = c.Oracle then do
    let osVer ← major osVer
    .ok (family, osVer, none)
  else if family = c.Amazon then do
    let osVer ← getAmazonLinuxVer osVer
    .ok (family, osVer, none)
  else if family = c.Alpine then do
    let osVer ← majorDotMinor osVer
    .ok (family, osVer, none)
  else if family = c.Fedora then do
    let osVer ← major osVer
    .ok (family, osVer, none)
  else if family = c.OpenSUSE then
    if osVer ≠ "tumbleweed".toList then do
      let osVer ← majorDotMinor osVer
      .ok (family, osVer, none)
    else .ok (family, osVer, none)
  else if family = c.OpenSUSELeap ∨ family = c.SUSEEnterpriseDesktop ∨
      family = c.SUSEEnterpriseServer then do
    let osVer ← majorDotMinor osVer
    .ok (family, osVer, none)
  else .ok ([], [], some (unknownFamilyError family))

/-! ## `filterByRedHatMajor` -/

/-- The function `strings.Contains(s, substr)`: some suffix of `s` starts with
`substr`. -/
def Contains : GoString → GoString → Bool
  | [], substr => substr.isEmpty
  | c :: cs, substr => substr.isPrefixOf (c :: cs) || Contains cs substr

/-- Modelled from the spec: `models.Package`, whose declaration is not among
the sources; it "has at least a `version` string". The other fields are kept
as one value `rest`. -/
structure Package (ρ : Type) where
  Version : GoString
  rest : ρ
  deriving DecidableEq, Repr

/-- Source: `func filterByRedHatMajor(packs []models.Package, majorVer string)
(filtered []models.Package)`: the loop appends the packages it keeps to
`filtered`, which starts empty. -/
def filterByRedHatMajor {ρ : Type} (packs : List (Package ρ)) (majorVer : GoString) :
    List (Package ρ) :=
  packs.foldl
    (fun filtered p =>
      if Contains p.Version (".el".toList ++ majorVer) ||
          Contains p.Version (".module+el".toList ++ majorVer) then
        filtered ++ [p]
      else filtered)
    []

/-- The condition the spec puts on a kept package: its version contains the
substring `".el" ++ majorVer` or the substring `".module+el" ++ majorVer`. -/
def matchesRedHatMajor {ρ : Type} (majorVer : GoString) (p : Package ρ) : Bool :=
  decide ((".el".toList ++ majorVer) <:+: p.Version ∨
    (".module+el".toList ++ majorVer) <:+: p.Version)

/-! ## `NewDB` -/

/-- Source: `type Option struct { RedisTimeout time.Duration }`; a duration is
a number of nanoseconds. -/
structure DBOption where
  RedisTimeout : Int
  deriving DecidableEq, Repr

/-- The type tags `newDB` switches on. They are declared in files of package
`db` that are not among the sources, so they are a parameter. -/
structure Dialects where
  dialectSqlite3 : GoString
  dialectMysql : GoString
  dialectPostgreSQL : GoString
  dialectRedis : GoString

/-- The tags are pairwise different: Go rejects a switch with two equal
constant cases. -/
def Dialects.Distinct (dl : Dialects) : Prop :=
  [dl.dialectSqlite3, dl.dialectMysql, dl.dialectPostgreSQL, dl.dialectRedis].Nodup

instance (dl : Dialects) : Decidable dl.Distinct := by
  unfold Dialects.Distinct; infer_instance

/-- Modelled from the spec: the type tags, "one tag family" for the relational
implementations and "a separate tag" for the key-value one; the spec fixes no
values, these are the usual names of the four dialects. -/
def specDialects : Dialects where
  dialectSqlite3 := "sqlite3".toList
  dialectMysql := "mysql".toList
  dialectPostgreSQL := "postgres".toList
  dialectRedis := "redis".toList

/-- The non-nil values of interface `DB` that `newDB` builds:
`&RDBDriver{name: dbType}` and `&RedisDriver{name: dbType}`. -/
inductive Driver where
  | RDBDriver (name : GoString)
  | RedisDriver (name : GoString)
  deriving DecidableEq, Repr

/-- The field `name` of a driver. -/
def Driver.name : Driver → GoString
  | .RDBDriver name => name
  | .RedisDriver name => name

/-- A lifecycle call `NewDB` makes on the driver. -/
inductive Call where
  | OpenDB (dbType dbPath : GoString) (debugSQL : Bool) (option : DBOption)
  | IsGovalDictModelV1
  | MigrateDB
  deriving DecidableEq, Repr

/-- The three methods of interface `DB` that `NewDB` calls. Their code is not
among the sources: each is an arbitrary function of the receiver, the arguments
and the state `σ` of the world (the store and the fields of the driver), which
gives the Go results and the next state. -/
structure Methods (σ : Type) where
  OpenDB : Driver → GoString → GoString → Bool → DBOption → σ → (Bool × Option GoError) × σ
  IsGovalDictModelV1 : Driver → σ → (Bool × Option GoError) × σ
  MigrateDB : Driver → σ → Option GoError × σ

/-- What a call of `NewDB` leaves: its three results, the lifecycle calls it
made on the driver, in order, and the state of the world. -/
structure NewDBResult (σ : Type) where
  driver : Option Driver
  locked : Bool
  err : Option GoError
  calls : List Call
  state : σ
  deriving DecidableEq

/-- Source: `func newDB(dbType string) (DB, error)`. -/
def newDB (dl : Dialects) (dbType : GoString) : Option Driver × Option GoError :=
  if dbType = dl.dialectSqlite3 ∨ dbType = dl.dialectMysql ∨
      dbType = dl.dialectPostgreSQL then
    (some (.RDBDriver dbType), none)
  else if dbType = dl.dialectRedis then
    (some (.RedisDriver dbType), none)
  else
    (none, some (.new ("Invalid database dialect. dbType: ".toList ++ dbType)))

/-- The error `NewDB` returns for a store with the schema of version 1. -/
def incompatibleSchemaError : GoError :=
  .new ("Failed to NewDB. Since SchemaVersion is incompatible, delete Database " ++
    "and fetch again.").toList

/-- Source: `NewDB return DB accessor`,
`func NewDB(dbType, dbPath string, debugSQL bool, option Option) (driver DB, locked bool, err error)`.
A method call on a nil driver would panic. -/
def NewDB {σ : Type} (dl : Dialects) (m : Methods σ) (dbType dbPath : GoString)
    (debugSQL : Bool) (option : DBOption) (s : σ) : Except Panic (NewDBResult σ) :=
  match newDB dl dbType with
  | (driver, some err) =>
    .ok ⟨driver, false, some (.wrap "Failed to new db. err: ".toList err), [], s⟩
  | (none, none) => .error .nilPointerDereference
  | (some driver, none) =>
    match m.OpenDB driver dbType dbPath debugSQL option s with
    | ((locked, some err), s1) =>
      if locked then
        .ok ⟨none, true, some err, [.OpenDB dbType dbPath debugSQL option], s1⟩
      else
        .ok ⟨none, false, some err, [.OpenDB dbType dbPath debugSQL option], s1⟩
    | ((_, none), s1) =>
      match m.IsGovalDictModelV1 driver s1 with
      | ((_, some err), s2) =>
        .ok ⟨none, false, some (.wrap "Failed to IsGovalDictModelV1. err: ".toList err),
          [.OpenDB dbType dbPath debugSQL option, .IsGovalDictModelV1], s2⟩
      | ((true, none), s2) =>
        .ok ⟨none, false, some incompatibleSchemaError,
          [.OpenDB dbType dbPath debugSQL option, .IsGovalDictModelV1], s2⟩
      | ((false, none), s2) =>
        match m.MigrateDB driver s2 with
        | (some err, s3) =>
          .ok ⟨some driver, false, some (.wrap "Failed to migrate db. err: ".toList err),
            [.OpenDB dbType dbPath debugSQL option, .IsGovalDictModelV1, .MigrateDB], s3⟩
        | (none, s3) =>
          .ok ⟨some driver, false, none,
            [.OpenDB dbType dbPath debugSQL option, .IsGovalDictModelV1, .MigrateDB], s3⟩

/-- A driver for the closed instances: its three methods return the given
results whatever the state, and the state counts the calls. -/
def scripted (openResult isV1Result : Bool × Option GoError) (migrateResult : Option GoError) :
    Methods Nat where
  OpenDB := fun _ _ _ _ _ n => (openResult, n + 1)
  IsGovalDictModelV1 := fun _ n => (isV1Result, n + 1)
  MigrateDB := fun _ n => (migrateResult, n + 1)

/-! ## The chunk sequence without overflow -/

/-- The chunk the spec gives for position `k` of `chunk(length, chunkSize)`:
`[k * chunkSize, min (k * chunkSize + chunkSize) length)`. -/
def specChunk (length chunkSize : Int) (k : Nat) : IndexChunk :=
  ⟨k * chunkSize, min (k * chunkSize + chunkSize) length⟩

/-- The chunks the spec gives for positions `k, k + 1, ..., k + m - 1`. -/
def specChunks (length chunkSize : Int) (k m : Nat) : List IndexChunk :=
  (List.range' k m).map (specChunk length chunkSize)

/-- A chunk, as a half-open range, contains the index `x`. -/
def IndexChunk.contains (c : IndexChunk) (x : Int) : Bool :=
  decide (c.From ≤ x ∧ x < c.To)

theorem wrapInt_eq_self {x : Int} (hlo : -9223372036854775808 ≤ x)
    (hhi : x < 9223372036854775808) : wrapInt x = x := by
  simp only [wrapInt, intBits]
  norm_num
  omega

theorem maxInt_eq : maxInt = 9223372036854775807 := by
  simp only [maxInt, intBits]; norm_num

theorem specChunks_succ (length chunkSize : Int) (k m : Nat) :
    specChunks length chunkSize k (m + 1) =
      specChunk length chunkSize k :: specChunks length chunkSize (k + 1) m := by
  simp [specChunks, List.range'_succ]

theorem specChunks_length (length chunkSize : Int) (k m : Nat) :
    (specChunks length chunkSize k m).length = m := by
  simp [specChunks]

theorem cast_succ_mul (k : Nat) (c : Int) : ((k + 1 : Nat) : Int) * c = k * c + c := by
  push_cast; ring

theorem cast_mul_le {k n : Nat} {c : Int} (hkn : k ≤ n) (hc : 0 ≤ c) :
    (k : Int) * c ≤ n * c :=
  Int.mul_le_mul_of_nonneg_right (by exact_mod_cast hkn) hc

/-- Number of chunks: the facts about `ceilDiv` the loop needs. -/
theorem ceilDiv_spec (a b : Int) (ha : 0 ≤ a) (hb : 1 ≤ b) :
    0 ≤ ceilDiv a b ∧ a ≤ ceilDiv a b * b ∧ (ceilDiv a b - 1) * b < a := by
  have h1 := Int.emod_add_ediv (a + b - 1) b
  have h2 := Int.emod_nonneg (a + b - 1) (show b ≠ 0 by omega)
  have h3 := Int.emod_lt_of_pos (a + b - 1) (show 0 < b by omega)
  have h4 : 0 ≤ (a + b - 1) / b := Int.ediv_nonneg (by omega) (by omega)
  have h5 : ceilDiv a b * b = b * ((a + b - 1) / b) := by
    simp only [ceilDiv]; ring
  have h6 : (ceilDiv a b - 1) * b = b * ((a + b - 1) / b) - b := by
    simp only [ceilDiv]; ring
  refine ⟨h4, ?_, ?_⟩
  · rw [h5]; omega
  · rw [h6]; omega

/-- While no addition overflows, the loop started at `k * chunkSize` sends the
chunks of the spec and then closes the channel. -/
theorem chunkLoop_eq_specChunks (length chunkSize : Int) (n : Nat) (hC : 1 ≤ chunkSize)
    (hlen : length ≤ n * chunkSize) (hov : (n : Int) * chunkSize ≤ maxInt)
    (hn : ∀ k : Nat, k < n → (k : Int) * chunkSize < length) :
    ∀ (m k : Nat), k + m = n → ∀ fuel, m ≤ fuel →
      chunkLoop length chunkSize fuel (k * chunkSize) =
        (specChunks length chunkSize k m, true) := by
  rw [maxInt_eq] at hov
  intro m
  induction m with
  | zero =>
    intro k hk fuel _
    have hk' : k = n := by omega
    subst hk'
    cases fuel with
    | zero => simp [chunkLoop, specChunks, hlen]
    | succ f =>
      have : ¬ (k : Int) * chunkSize < length := by omega
      simp [chunkLoop, specChunks, this]
  | succ m ih =>
    intro k hk fuel hfuel
    obtain ⟨f, rfl⟩ : ∃ f, fuel = f + 1 := ⟨fuel - 1, by omega⟩
    have hlt : (k : Int) * chunkSize < length := hn k (by omega)
    have hk0 : (0 : Int) ≤ k * chunkSize := mul_nonneg (by positivity) (by omega)
    have hle : ((k + 1 : Nat) : Int) * chunkSize ≤ n * chunkSize :=
      cast_mul_le (by omega) (by omega)
    rw [cast_succ_mul] at hle
    have hw : wrapInt (k * chunkSize + chunkSize) = ((k + 1 : Nat) : Int) * chunkSize := by
      rw [cast_succ_mul]
      exact wrapInt_eq_self (by omega) (by omega)
    have hat : chunkAt length chunkSize (k * chunkSize) = specChunk length chunkSize k := by
      simp only [chunkAt, specChunk, hw, cast_succ_mul]
      split
      · next h => rw [min_eq_right (by omega)]
      · next h => rw [min_eq_left (by omega)]
    have hrec := ih (k + 1) (by omega) f (by omega)
    simp only [chunkLoop, hlt, if_true, hw, hrec, hat, specChunks_succ]

/-- The channel delivers the chunks of the spec, `ceilDiv length chunkSize` of
them, and is closed, as long as the end of the last full-size chunk fits in an
`int`. -/
theorem chunkSlice_eq_specChunks (length chunkSize : Int) (h0 : 0 ≤ length)
    (h1 : 1 ≤ chunkSize) (hov : ceilDiv length chunkSize * chunkSize ≤ maxInt)
    (fuel : Nat) (hfuel : (ceilDiv length chunkSize).toNat ≤ fuel) :
    chunkSlice length chunkSize fuel =
      (specChunks length chunkSize 0 (ceilDiv length chunkSize).toNat, true) := by
  obtain ⟨hq0, hq1, hq2⟩ := ceilDiv_spec length chunkSize h0 h1
  have hcast : (((ceilDiv length chunkSize).toNat : Nat) : Int) = ceilDiv length chunkSize :=
    Int.toNat_of_nonneg hq0
  have hn : ∀ k : Nat, k < (ceilDiv length chunkSize).toNat →
      (k : Int) * chunkSize < length := by
    intro k hk
    have hk' : (k : Int) ≤ ceilDiv length chunkSize - 1 := by omega
    have := Int.mul_le_mul_of_nonneg_right hk' (show (0 : Int) ≤ chunkSize by omega)
    omega
  have := chunkLoop_eq_specChunks length chunkSize (ceilDiv length chunkSize).toNat h1
    (by rw [hcast]; exact hq1) (by rw [hcast]; exact hov) hn
    (ceilDiv length chunkSize).toNat 0 (by omega) fuel hfuel
  simpa [chunkSlice] using this

theorem specChunks_head (length chunkSize : Int) (k m : Nat) (c : IndexChunk)
    (h : c ∈ (specChunks length chunkSize k m).head?) : c.From = k * chunkSize := by
  cases m with
  | zero => simp [specChunks] at h
  | succ m =>
    simp [specChunks_succ] at h
    subst h
    rfl

theorem specChunks_getElem? (length chunkSize : Int) (m j : Nat) (c : IndexChunk)
    (h : (specChunks length chunkSize 0 m)[j]? = some c) :
    j < m ∧ c = specChunk length chunkSize j := by
  have hj : j < m := by
    have := (List.getElem?_eq_some.1 h).1
    simpa [specChunks] using this
  refine ⟨hj, ?_⟩
  simp [specChunks, List.getElem?_range' 0 1 hj] at h
  exact h.symm

theorem specChunks_contiguous (length chunkSize : Int) :
    ∀ (m k : Nat), (∀ j : Nat, j < k + m → (j : Int) * chunkSize < length) →
      (specChunks length chunkSize k m).Chain' (fun a b => b.From = a.To) := by
  intro m
  induction m with
  | zero => intro k _; simp [specChunks]
  | succ m ih =>
    intro k hn
    rw [specChunks_succ, List.chain'_cons']
    refine ⟨?_, ih (k + 1) (fun j hj => hn j (by omega))⟩
    intro y hy
    have hy' := specChunks_head _ _ _ _ _ hy
    have hm : 0 < m := by
      cases m with
      | zero => simp [specChunks] at hy
      | succ _ => omega
    have hlt := hn (k + 1) (by omega)
    rw [cast_succ_mul] at hlt hy'
    simp only [specChunk, hy']
    rw [min_eq_left (by omega)]

theorem specChunks_increasing (length chunkSize : Int) (h1 : 1 ≤ chunkSize) (k m : Nat) :
    (specChunks length chunkSize k m).Pairwise (fun a b => a.From < b.From) := by
  unfold specChunks
  rw [List.pairwise_map]
  refine (List.pairwise_lt_range' k m).imp ?_
  intro a b hab
  have := cast_mul_le (show a + 1 ≤ b by omega) (show (0 : Int) ≤ chunkSize by omega)
  rw [cast_succ_mul] at this
  simp only [specChunk]
  omega

theorem specChunks_nonempty_range (length chunkSize : Int) (h1 : 1 ≤ chunkSize) (k m : Nat)
    (hn : ∀ j : Nat, j < k + m → (j : Int) * chunkSize < length) :
    ∀ c ∈ specChunks length chunkSize k m, c.From < c.To := by
  intro c hc
  simp only [specChunks, List.mem_map, List.mem_range'_1] at hc
  obtain ⟨j, ⟨_, hj⟩, rfl⟩ := hc
  have := hn j hj
  simp only [specChunk]
  rw [lt_min_iff]
  omega

theorem specChunks_last (length chunkSize : Int) (k m : Nat) (c : IndexChunk)
    (hlen : length ≤ ((k + m : Nat) : Int) * chunkSize)
    (h : c ∈ (specChunks length chunkSize k m).getLast?) : c.To = length := by
  cases m with
  | zero => simp [specChunks] at h
  | succ m =>
    simp only [specChunks, List.range'_1_concat, List.map_append, List.map_cons, List.map_nil,
      List.getLast?_concat, Option.mem_def, Option.some.injEq] at h
    subst h
    have e : ((k + (m + 1) : Nat) : Int) * chunkSize = ((k + m : Nat) : Int) * chunkSize + chunkSize := by
      push_cast; ring
    rw [e] at hlen
    simp only [specChunk]
    exact min_eq_right hlen

theorem specChunks_countP (length chunkSize : Int) (h1 : 1 ≤ chunkSize) (x : Int) :
    ∀ (m k : Nat), (specChunks length chunkSize k m).countP (fun c => c.contains x) =
      if (k : Int) * chunkSize ≤ x ∧ x < ((k + m : Nat) : Int) * chunkSize ∧ x < length
      then 1 else 0 := by
  intro m
  induction m with
  | zero =>
    intro k
    have : ¬ ((k : Int) * chunkSize ≤ x ∧ x < (k : Int) * chunkSize ∧ x < length) := by
      omega
    simp only [specChunks, List.range'_zero, List.map_nil, List.countP_nil, Nat.add_zero,
      if_neg this]
  | succ m ih =>
    intro k
    rw [specChunks_succ, List.countP_cons, ih (k + 1)]
    have e1 : ((k + 1 + m : Nat) : Int) * chunkSize = k * chunkSize + chunkSize + m * chunkSize := by
      push_cast; ring
    have e2 : ((k + (m + 1) : Nat) : Int) * chunkSize = k * chunkSize + chunkSize + m * chunkSize := by
      push_cast; ring
    have hm : (0 : Int) ≤ m * chunkSize := mul_nonneg (by positivity) (by omega)
    simp only [e1, e2, cast_succ_mul, IndexChunk.contains, specChunk, lt_min_iff,
      decide_eq_true_eq]
    split_ifs <;> omega

/-! ## The chunk sequence when `i + chunkSize` overflows -/

theorem chunkLoop_succ_of_lt (length chunkSize i : Int) (fuel : Nat) (h : i < length) :
    chunkLoop length chunkSize (fuel + 1) i =
      (chunkAt length chunkSize i :: (chunkLoop length chunkSize fuel (wrapInt (i + chunkSize))).1,
        (chunkLoop length chunkSize fuel (wrapInt (i + chunkSize))).2) := by
  simp [chunkLoop, h]

/-- With `length = maxInt` and `chunkSize = maxInt - 1` the second addition
`i + chunkSize` wraps around: the second chunk sent ends at `-4`, and a third
chunk, starting at `-4`, follows. -/
theorem chunkSlice_overflow_start (fuel : Nat) :
    chunkSlice 9223372036854775807 9223372036854775806 (fuel + 3) =
      (⟨0, 9223372036854775806⟩ :: ⟨9223372036854775806, -4⟩ :: ⟨-4, 9223372036854775802⟩ ::
          (chunkLoop 9223372036854775807 9223372036854775806 fuel 9223372036854775802).1,
        (chunkLoop 9223372036854775807 9223372036854775806 fuel 9223372036854775802).2) := by
  have w1 : wrapInt (0 + 9223372036854775806) = 9223372036854775806 := by decide
  have w2 : wrapInt (9223372036854775806 + 9223372036854775806) = -4 := by decide
  have w3 : wrapInt (-4 + 9223372036854775806) = 9223372036854775802 := by decide
  have c1 : chunkAt 9223372036854775807 9223372036854775806 0 = ⟨0, 9223372036854775806⟩ := by
    decide
  have c2 : chunkAt 9223372036854775807 9223372036854775806 9223372036854775806 =
      ⟨9223372036854775806, -4⟩ := by decide
  have c3 : chunkAt 9223372036854775807 9223372036854775806 (-4) =
      ⟨-4, 9223372036854775802⟩ := by decide
  rw [chunkSlice, chunkLoop_succ_of_lt _ _ _ _ (by decide), w1,
    chunkLoop_succ_of_lt _ _ _ _ (by decide), w2,
    chunkLoop_succ_of_lt _ _ _ _ (by decide), w3, c1, c2, c3]

/-- With `length = maxInt` and `chunkSize = maxInt - 1` the channel is still
open after two iterations, and whenever it is closed at least three chunks have
been sent, the second of them `(maxInt - 1, -4)`. -/
theorem chunkSlice_overflow_closed (fuel : Nat) (l : List IndexChunk)
    (h : chunkSlice 9223372036854775807 9223372036854775806 fuel = (l, true)) :
    ∃ rest, l = ⟨0, 9223372036854775806⟩ :: ⟨9223372036854775806, -4⟩ ::
      ⟨-4, 9223372036854775802⟩ :: rest := by
  match fuel, h with
  | 0, h =>
    have h2 : (chunkSlice 9223372036854775807 9223372036854775806 0).2 = true :=
      congrArg Prod.snd h
    exact absurd h2 (by decide)
  | 1, h =>
    have h2 : (chunkSlice 9223372036854775807 9223372036854775806 1).2 = true :=
      congrArg Prod.snd h
    exact absurd h2 (by decide)
  | 2, h =>
    have h2 : (chunkSlice 9223372036854775807 9223372036854775806 2).2 = true :=
      congrArg Prod.snd h
    exact absurd h2 (by decide)
  | f + 3, h =>
    rw [chunkSlice_overflow_start] at h
    exact ⟨_, (congrArg Prod.fst h).symm⟩

/-! ## Claims on `chunkSlice` -/

/-- C1, as stated, fails: for `length = 2^63 - 1` and `chunkSize = 2^63 - 2`
the second chunk received is `(2^63 - 2, -4)`, whose `To` is below its `From`
and below `0`; so whenever the channel is closed, some chunk received does not
have `From < To`. -/
theorem chunkSlice_covers_counterexample :
    (0 : Int) ≤ 9223372036854775807 ∧ (1 : Int) ≤ 9223372036854775806 ∧
    chunkSlice 9223372036854775807 9223372036854775806 2 =
      ([⟨0, 9223372036854775806⟩, ⟨9223372036854775806, -4⟩], false) ∧
    ¬ ∃ fuel l, chunkSlice 9223372036854775807 9223372036854775806 fuel = (l, true) ∧
        ∀ c ∈ l, c.From < c.To := by
  refine ⟨by decide, by decide, by decide, ?_⟩
  rintro ⟨fuel, l, h, hall⟩
  obtain ⟨rest, rfl⟩ := chunkSlice_overflow_closed fuel l h
  have := hall ⟨9223372036854775806, -4⟩ (by simp)
  exact absurd this (by decide)

/-- C1, amended: for `length ≥ 0` and `chunkSize ≥ 1` such that
`ceil(length / chunkSize) * chunkSize` does not exceed the largest `int`, the
channel of `chunkSlice(length, chunkSize)` delivers a list of chunks and is
closed; the first chunk starts at `0`, each chunk starts where the previous one
ends, the `From` values strictly increase, every chunk has `From < To`, the
last chunk ends at `length`, and every integer lies in exactly one chunk when it
is in `[0, length)` and in no chunk otherwise. -/
theorem chunkSlice_covers (length chunkSize : Int) (h0 : 0 ≤ length) (h1 : 1 ≤ chunkSize)
    (hov : ceilDiv length chunkSize * chunkSize ≤ maxInt) :
    ∃ l : List IndexChunk,
      (∀ fuel, (ceilDiv length chunkSize).toNat ≤ fuel →
        chunkSlice length chunkSize fuel = (l, true)) ∧
      (∀ c ∈ l.head?, c.From = 0) ∧
      l.Chain' (fun a b => b.From = a.To) ∧
      l.Pairwise (fun a b => a.From < b.From) ∧
      (∀ c ∈ l, c.From < c.To) ∧
      (∀ c ∈ l.getLast?, c.To = length) ∧
      ∀ x : Int, l.countP (fun c => c.contains x) = if 0 ≤ x ∧ x < length then 1 else 0 := by
  obtain ⟨hq0, hq1, hq2⟩ := ceilDiv_spec length chunkSize h0 h1
  have hcast : (((ceilDiv length chunkSize).toNat : Nat) : Int) = ceilDiv length chunkSize :=
    Int.toNat_of_nonneg hq0
  have hn : ∀ j : Nat, j < 0 + (ceilDiv length chunkSize).toNat →
      (j : Int) * chunkSize < length := by
    intro j hj
    have hj' : (j : Int) ≤ ceilDiv length chunkSize - 1 := by omega
    have := Int.mul_le_mul_of_nonneg_right hj' (show (0 : Int) ≤ chunkSize by omega)
    omega
  refine ⟨specChunks length chunkSize 0 (ceilDiv length chunkSize).toNat,
    fun fuel hfuel => chunkSlice_eq_specChunks length chunkSize h0 h1 hov fuel hfuel,
    ?_, specChunks_contiguous length chunkSize _ 0 hn,
    specChunks_increasing length chunkSize h1 0 _,
    specChunks_nonempty_range length chunkSize h1 0 _ hn, ?_, ?_⟩
  · intro c hc
    simpa using specChunks_head _ _ _ _ _ hc
  · intro c hc
    refine specChunks_last length chunkSize 0 _ c ?_ hc
    rw [Nat.zero_add, hcast]
    exact hq1
  · intro x
    rw [specChunks_countP length chunkSize h1 x, Nat.zero_add, hcast]
    have : ((0 : Nat) : Int) * chunkSize = 0 := by simp
    rw [this]
    split_ifs <;> omega

/-- C1, amended, at `length = 10` and `chunkSize = 3`. -/
theorem chunkSlice_covers_witness :
    (0 : Int) ≤ 10 ∧ (1 : Int) ≤ 3 ∧ ceilDiv 10 3 * 3 ≤ maxInt ∧
    ∃ l : List IndexChunk,
      (∀ fuel, (ceilDiv 10 3).toNat ≤ fuel → chunkSlice 10 3 fuel = (l, true)) ∧
      (∀ c ∈ l.head?, c.From = 0) ∧
      l.Chain' (fun a b => b.From = a.To) ∧
      l.Pairwise (fun a b => a.From < b.From) ∧
      (∀ c ∈ l, c.From < c.To) ∧
      (∀ c ∈ l.getLast?, c.To = 10) ∧
      ∀ x : Int, l.countP (fun c => c.contains x) = if 0 ≤ x ∧ x < 10 then 1 else 0 :=
  ⟨by decide, by decide, by decide, chunkSlice_covers 10 3 (by decide) (by decide) (by decide)⟩

/-- C2, as stated, fails: for `length = 2^63 - 1` and `chunkSize = 2^63 - 2`
the ceiling of `length / chunkSize` is `2`, yet three chunks have been received
after three iterations; the channel is never closed after exactly
`ceil(length / chunkSize)` chunks. -/
theorem chunkSlice_count_counterexample :
    ceilDiv 9223372036854775807 9223372036854775806 = 2 ∧
    (chunkSlice 9223372036854775807 9223372036854775806 3).1.length = 3 ∧
    ¬ ∃ fuel l, chunkSlice 9223372036854775807 9223372036854775806 fuel = (l, true) ∧
        (l.length : Int) = ceilDiv 9223372036854775807 9223372036854775806 := by
  refine ⟨by decide, by decide, ?_⟩
  rintro ⟨fuel, l, h, hlen⟩
  obtain ⟨rest, rfl⟩ := chunkSlice_overflow_closed fuel l h
  have e : ceilDiv 9223372036854775807 9223372036854775806 = 2 := by decide
  rw [e] at hlen
  simp only [List.length_cons] at hlen
  omega

/-- C2, amended: for `length ≥ 0` and `chunkSize ≥ 1` such that
`ceil(length / chunkSize) * chunkSize` does not exceed the largest `int`, the
channel of `chunkSlice(length, chunkSize)` delivers exactly
`ceil(length / chunkSize)` chunks and is closed; that number `n` is the one with
`(n - 1) * chunkSize < length ≤ n * chunkSize`, and it is zero when
`length = 0`. -/
theorem chunkSlice_count (length chunkSize : Int) (h0 : 0 ≤ length) (h1 : 1 ≤ chunkSize)
    (hov : ceilDiv length chunkSize * chunkSize ≤ maxInt) :
    ∃ l : List IndexChunk,
      (∀ fuel, (ceilDiv length chunkSize).toNat ≤ fuel →
        chunkSlice length chunkSize fuel = (l, true)) ∧
      (l.length : Int) = ceilDiv length chunkSize ∧
      ((l.length : Int) - 1) * chunkSize < length ∧ length ≤ (l.length : Int) * chunkSize ∧
      (length = 0 → l = []) := by
  obtain ⟨hq0, hq1, hq2⟩ := ceilDiv_spec length chunkSize h0 h1
  have hcast : (((ceilDiv length chunkSize).toNat : Nat) : Int) = ceilDiv length chunkSize :=
    Int.toNat_of_nonneg hq0
  refine ⟨specChunks length chunkSize 0 (ceilDiv length chunkSize).toNat,
    fun fuel hfuel => chunkSlice_eq_specChunks length chunkSize h0 h1 hov fuel hfuel, ?_⟩
  rw [specChunks_length, hcast]
  refine ⟨rfl, hq2, hq1, ?_⟩
  intro hz
  have hq : ceilDiv length chunkSize = 0 := by
    by_contra hne
    have hpos : (1 : Int) ≤ ceilDiv length chunkSize - 1 + 1 := by omega
    have := Int.mul_le_mul_of_nonneg_right (show (0 : Int) ≤ ceilDiv length chunkSize - 1 by omega)
      (show (0 : Int) ≤ chunkSize by omega)
    omega
  simp [specChunks, hq]

/-- C2, amended, at `length = 10` and `chunkSize = 3`. -/
theorem chunkSlice_count_witness :
    (0 : Int) ≤ 10 ∧ (1 : Int) ≤ 3 ∧ ceilDiv 10 3 * 3 ≤ maxInt ∧
    ∃ l : List IndexChunk,
      (∀ fuel, (ceilDiv 10 3).toNat ≤ fuel → chunkSlice 10 3 fuel = (l, true)) ∧
      (l.length : Int) = ceilDiv 10 3 ∧
      ((l.length : Int) - 1) * 3 < 10 ∧ 10 ≤ (l.length : Int) * 3 ∧
      ((10 : Int) = 0 → l = []) :=
  ⟨by decide, by decide, by decide, chunkSlice_count 10 3 (by decide) (by decide) (by decide)⟩

/-- C3, as stated, fails: for `length = 2^63 - 1` and `chunkSize = 2^63 - 2`
the chunk at position `1` is `(2^63 - 2, -4)`, not
`(chunkSize, min (2 * chunkSize) length)`, and its `To - From` is negative; so
whenever the channel is closed, some chunk received does not have
`1 ≤ To - From`. -/
theorem chunkSlice_batch_counterexample :
    (chunkSlice 9223372036854775807 9223372036854775806 2).1[1]? =
      some ⟨9223372036854775806, -4⟩ ∧
    ¬ ∃ fuel l, chunkSlice 9223372036854775807 9223372036854775806 fuel = (l, true) ∧
        ∀ (k : Nat) (c : IndexChunk), l[k]? = some c →
          1 ≤ c.To - c.From ∧ c.To - c.From ≤ 9223372036854775806 := by
  refine ⟨by decide, ?_⟩
  rintro ⟨fuel, l, h, hall⟩
  obtain ⟨rest, rfl⟩ := chunkSlice_overflow_closed fuel l h
  have := (hall 1 ⟨9223372036854775806, -4⟩ (by simp)).1
  exact absurd this (by decide)

/-- C3, amended: for `length ≥ 0` and `chunkSize ≥ 1` such that
`ceil(length / chunkSize) * chunkSize` does not exceed the largest `int`, the
channel of `chunkSlice(length, chunkSize)` delivers a list of chunks and is
closed; the chunk at position `k` (from 0) is
`(k * chunkSize, min (k * chunkSize + chunkSize) length)`, its size `To - From`
is at least `1` and at most `chunkSize`, and it is `chunkSize` exactly for every
chunk but the last. -/
theorem chunkSlice_batch (length chunkSize : Int) (h0 : 0 ≤ length) (h1 : 1 ≤ chunkSize)
    (hov : ceilDiv length chunkSize * chunkSize ≤ maxInt) :
    ∃ l : List IndexChunk,
      (∀ fuel, (ceilDiv length chunkSize).toNat ≤ fuel →
        chunkSlice length chunkSize fuel = (l, true)) ∧
      ∀ (k : Nat) (c : IndexChunk), l[k]? = some c →
        c = ⟨k * chunkSize, min (k * chunkSize + chunkSize) length⟩ ∧
        1 ≤ c.To - c.From ∧ c.To - c.From ≤ chunkSize ∧
        (k + 1 < l.length → c.To - c.From = chunkSize) := by
  obtain ⟨hq0, hq1, hq2⟩ := ceilDiv_spec length chunkSize h0 h1
  have hn : ∀ j : Nat, j < (ceilDiv length chunkSize).toNat →
      (j : Int) * chunkSize < length := by
    intro j hj
    have hj' : (j : Int) ≤ ceilDiv length chunkSize - 1 := by omega
    have := Int.mul_le_mul_of_nonneg_right hj' (show (0 : Int) ≤ chunkSize by omega)
    omega
  refine ⟨specChunks length chunkSize 0 (ceilDiv length chunkSize).toNat,
    fun fuel hfuel => chunkSlice_eq_specChunks length chunkSize h0 h1 hov fuel hfuel, ?_⟩
  intro k c hk
  obtain ⟨hkn, rfl⟩ := specChunks_getElem? length chunkSize _ k c hk
  have hlt := hn k hkn
  refine ⟨rfl, ?_, ?_, ?_⟩
  · simp only [specChunk]
    have : (k : Int) * chunkSize + 1 ≤ min (k * chunkSize + chunkSize) length := by
      rw [le_min_iff]; omega
    omega
  · simp only [specChunk]
    have := min_le_left ((k : Int) * chunkSize + chunkSize) length
    omega
  · intro hk1
    rw [specChunks_length] at hk1
    have hlt1 := hn (k + 1) hk1
    rw [cast_succ_mul] at hlt1
    simp only [specChunk]
    rw [min_eq_left (by omega)]
    omega

/-- C3, amended, at `length = 10` and `chunkSize = 3`. -/
theorem chunkSlice_batch_witness :
    (0 : Int) ≤ 10 ∧ (1 : Int) ≤ 3 ∧ ceilDiv 10 3 * 3 ≤ maxInt ∧
    ∃ l : List IndexChunk,
      (∀ fuel, (ceilDiv 10 3).toNat ≤ fuel → chunkSlice 10 3 fuel = (l, true)) ∧
      ∀ (k : Nat) (c : IndexChunk), l[k]? = some c →
        c = ⟨k * 3, min (k * 3 + 3) 10⟩ ∧
        1 ≤ c.To - c.From ∧ c.To - c.From ≤ 3 ∧
        (k + 1 < l.length → c.To - c.From = 3) :=
  ⟨by decide, by decide, by decide, chunkSlice_batch 10 3 (by decide) (by decide) (by decide)⟩

/-! ## `strings.Split` -/

theorem Split_ne_nil (s : GoString) (sep : Char) : Split s sep ≠ [] := by
  cases s with
  | nil => simp [Split]
  | cons c cs =>
    simp only [Split]
    split
    · simp
    · split <;> simp

theorem Split_of_not_mem (s : GoString) (sep : Char) (h : sep ∉ s) : Split s sep = [s] := by
  induction s with
  | nil => rfl
  | cons c cs ih =>
    have hc : ¬ c = sep := fun e => h (by simp [e])
    have hcs : sep ∉ cs := fun e => h (by simp [e])
    simp [Split, hc, ih hcs]

theorem Split_append_sep (a rest : GoString) (sep : Char) (h : sep ∉ a) :
    Split (a ++ sep :: rest) sep = a :: Split rest sep := by
  induction a with
  | nil => simp [Split]
  | cons c cs ih =>
    have hc : ¬ c = sep := fun e => h (by simp [e])
    have hcs : sep ∉ cs := fun e => h (by simp [e])
    simp [Split, hc, ih hcs]

/-- A string either has no separator or splits at its first separator. -/
theorem exists_first_sep (s : GoString) (sep : Char) :
    sep ∉ s ∨ ∃ a rest, sep ∉ a ∧ s = a ++ sep :: rest := by
  induction s with
  | nil => left; simp
  | cons c cs ih =>
    by_cases hc : c = sep
    · right
      exact ⟨[], cs, by simp, by simp [hc]⟩
    · rcases ih with h | ⟨a, rest, ha, rfl⟩
      · left
        simp [h, Ne.symm hc]
      · right
        exact ⟨c :: a, rest, by simp [ha, Ne.symm hc], by simp⟩

theorem Split_length (s : GoString) (sep : Char) :
    (Split s sep).length = s.count sep + 1 := by
  induction s with
  | nil => rfl
  | cons c cs ih =>
    by_cases hc : c = sep
    · subst hc
      simp [Split, ih]
    · simp only [Split, hc, if_false]
      have hne := Split_ne_nil cs sep
      cases hs : Split cs sep with
      | nil => exact absurd hs hne
      | cons piece pieces =>
        rw [hs] at ih
        simp only [List.length_cons] at ih ⊢
        rw [List.count_cons_of_ne (Ne.symm hc)]
        exact ih

theorem index_zero_cons {α : Type} (x : α) (xs : List α) :
    index (x :: xs) 0 = (Except.ok x : Except Panic α) := rfl

/-! ## Claims on `major` and `majorDotMinor` -/

/-- C9: for every string `v`, `major(v)` returns, without a panic, the first
piece of `v` split at `'.'`: the result has no `'.'`, and either `v` has no
`'.'` and the result is `v`, or `v` is the result followed by `'.'` and the rest
of `v`. In particular `major("")` is `""`, `major("18.04")` is `"18"` and
`major("7")` is `"7"`. -/
theorem major_first_component (v : GoString) :
    (∃ r, major v = .ok r ∧ (Split v '.').head? = some r ∧ '.' ∉ r ∧
      (('.' ∉ v ∧ r = v) ∨ ∃ rest, v = r ++ '.' :: rest)) ∧
    major "".toList = .ok "".toList ∧
    major "18.04".toList = .ok "18".toList ∧
    major "7".toList = .ok "7".toList := by
  refine ⟨?_, by decide, by decide, by decide⟩
  rcases exists_first_sep v '.' with h | ⟨a, rest, ha, rfl⟩
  · refine ⟨v, ?_, ?_, h, Or.inl ⟨h, rfl⟩⟩
    · simp only [major, Split_of_not_mem v '.' h, index_zero_cons]
    · simp only [Split_of_not_mem v '.' h, List.head?_cons]
  · refine ⟨a, ?_, ?_, ha, Or.inr ⟨rest, rfl⟩⟩
    · simp only [major, Split_append_sep a rest '.' ha, index_zero_cons]
    · simp only [Split_append_sep a rest '.' ha, List.head?_cons]

theorem majorDotMinor_of_short (v : GoString) (h : (Split v '.').length < 3) :
    majorDotMinor v = .ok v := by
  simp [majorDotMinor, h]

theorem majorDotMinor_of_long (v a b : GoString) (pieces : List GoString)
    (h : Split v '.' = a :: b :: pieces) (hp : pieces ≠ []) :
    majorDotMinor v = .ok (a ++ '.' :: b) := by
  have hlen : ¬ (a :: b :: pieces).length < 3 := by
    cases pieces with
    | nil => exact absurd rfl hp
    | cons _ _ => simp
  have hs : sliceTo (a :: b :: pieces) 2 = (Except.ok [a, b] : Except Panic _) := by
    simp [sliceTo]
  have hj : Join [a, b] ".".toList = a ++ '.' :: b := by
    simp [Join]
  simp only [majorDotMinor, h, hlen, if_false, hs]
  show Except.ok (Join [a, b] ".".toList) = _
  rw [hj]

/-- C10: for every string `v`, the number of pieces of `v` split at `'.'` is
the number of `'.'` in `v` plus one; when `v` has at most one `'.'` (fewer than
three pieces) `majorDotMinor(v)` returns `v` unchanged; when `v` has two `'.'` or
more, `v` is `a.b.rest` with no `'.'` in `a` and in `b`, and `majorDotMinor(v)`
returns `a.b`, the first two pieces joined by one `'.'`, which is the prefix of
`v` that ends just before its second `'.'`. In particular
`majorDotMinor("11.4.0")` and `majorDotMinor("11.4")` are `"11.4"`. -/
theorem majorDotMinor_spec (v : GoString) :
    (Split v '.').length = v.count '.' + 1 ∧
    (v.count '.' ≤ 1 → majorDotMinor v = .ok v) ∧
    (2 ≤ v.count '.' → ∃ a b rest, '.' ∉ a ∧ '.' ∉ b ∧ v = a ++ '.' :: (b ++ '.' :: rest) ∧
      Split v '.' = a :: b :: Split rest '.' ∧ majorDotMinor v = .ok (a ++ '.' :: b)) ∧
    majorDotMinor "11.4.0".toList = .ok "11.4".toList ∧
    majorDotMinor "11.4".toList = .ok "11.4".toList := by
  refine ⟨Split_length v '.', ?_, ?_, by decide, by decide⟩
  · intro h
    apply majorDotMinor_of_short
    rw [Split_length]
    omega
  · intro h
    rcases exists_first_sep v '.' with h0 | ⟨a, r1, ha, rfl⟩
    · rw [List.count_eq_zero_of_not_mem h0] at h
      omega
    · rcases exists_first_sep r1 '.' with h1 | ⟨b, rest, hb, rfl⟩
      · rw [List.count_append, List.count_cons_self, List.count_eq_zero_of_not_mem ha,
          List.count_eq_zero_of_not_mem h1] at h
        omega
      · have hs : Split (a ++ '.' :: (b ++ '.' :: rest)) '.' = a :: b :: Split rest '.' := by
          rw [Split_append_sep _ _ _ ha, Split_append_sep _ _ _ hb]
        exact ⟨a, b, rest, ha, hb, rfl, hs,
          majorDotMinor_of_long _ a b _ hs (Split_ne_nil rest '.')⟩

/-- C10 at `v = "11.4.0"`, which has two `'.'`. -/
theorem majorDotMinor_spec_witness :
    2 ≤ "11.4.0".toList.count '.' ∧
    ∃ a b rest, '.' ∉ a ∧ '.' ∉ b ∧ "11.4.0".toList = a ++ '.' :: (b ++ '.' :: rest) ∧
      Split "11.4.0".toList '.' = a :: b :: Split rest '.' ∧
      majorDotMinor "11.4.0".toList = .ok (a ++ '.' :: b) :=
  ⟨by decide, (majorDotMinor_spec "11.4.0".toList).2.2.1 (by decide)⟩

/-! ## Claims on `formatFamilyAndOSVer` and `getAmazonLinuxVer` -/

theorem ok_bind {α β : Type} (a : α) (f : α → Except Panic β) :
    (Except.ok a >>= f) = f a := rfl

theorem error_bind {α β : Type} (p : Panic) (f : α → Except Panic β) :
    ((Except.error p : Except Panic α) >>= f) = Except.error p := rfl

theorem exists_major (v : GoString) : ∃ r, major v = .ok r := by
  cases h : Split v '.' with
  | nil => exact absurd h (Split_ne_nil v '.')
  | cons a pieces => exact ⟨a, by simp only [major, h, index_zero_cons]⟩

theorem exists_majorDotMinor (v : GoString) : ∃ r, majorDotMinor v = .ok r := by
  by_cases h : (Split v '.').length < 3
  · exact ⟨v, majorDotMinor_of_short v h⟩
  · match hs : Split v '.', h with
    | [], h => simp at h
    | [_], h => simp at h
    | [_, _], h => simp at h
    | a :: b :: c :: rest, _ => exact ⟨_, majorDotMinor_of_long v a b (c :: rest) hs (by simp)⟩

/-- The scanning loop of `strings.Fields` finds no field exactly when no field
is being read and only white space follows. -/
theorem fieldsLoop_eq_nil (s cur : GoString) :
    fieldsLoop s cur = [] ↔ cur = [] ∧ ∀ ch ∈ s, isSpace ch = true := by
  induction s generalizing cur with
  | nil => simp [fieldsLoop]
  | cons c cs ih =>
    by_cases hc : isSpace c = true
    · by_cases hcur : cur = []
      · simp [fieldsLoop, hc, hcur, ih]
      · simp [fieldsLoop, hc, hcur]
    · simp [fieldsLoop, hc, ih]

/-- The strings without a field are the strings of white space only, the empty
string among them. -/
theorem Fields_eq_nil (s : GoString) : Fields s = [] ↔ ∀ ch ∈ s, isSpace ch = true := by
  simp [Fields, fieldsLoop_eq_nil]

/-- On a string with a first field, `getAmazonLinuxVer` returns "2022", "2" or
"1" according to that field. -/
theorem getAmazonLinuxVer_of_fields (v t : GoString) (ts : List GoString)
    (h : Fields v = t :: ts) :
    getAmazonLinuxVer v = .ok (if t = "2022".toList then "2022".toList
      else if t = "2".toList then "2".toList else "1".toList) := by
  simp only [getAmazonLinuxVer, h, index_zero_cons, ok_bind]
  split_ifs <;> rfl

/-- On a string without a field, `getAmazonLinuxVer` panics at `ss[0]`. -/
theorem getAmazonLinuxVer_of_blank (v : GoString) (h : Fields v = []) :
    getAmazonLinuxVer v = .error (.indexOutOfRange 0 0) := by
  simp only [getAmazonLinuxVer, h]
  rfl

theorem exists_getAmazonLinuxVer (v : GoString) (h : Fields v ≠ []) :
    ∃ r, getAmazonLinuxVer v = .ok r := by
  cases hf : Fields v with
  | nil => exact absurd hf h
  | cons t ts => exact ⟨_, getAmazonLinuxVer_of_fields v t ts hf⟩

/-- Pairwise different constants, read in either direction. -/
theorem Config.Distinct.pairwise {c : Config} (hc : c.Distinct) :
    c.families.Pairwise (fun a b => ¬ a = b ∧ ¬ b = a) :=
  List.Pairwise.imp (fun h => ⟨h, Ne.symm h⟩) hc

/-- The outcomes of the switch of `formatFamilyAndOSVer`, case by case: the
default case, a case that takes `major`, a case that takes `majorDotMinor`, the
case of opensuse "tumbleweed", and the case of amazon. -/
theorem formatFamilyAndOSVer_cases (c : Config) (family osVer : GoString) :
    (family ∉ c.families ∧
      formatFamilyAndOSVer c family osVer = .ok ([], [], some (unknownFamilyError family))) ∨
    (family ∈ c.families ∧ ∃ f, f ∈ c.canonicalFamilies ∧
      formatFamilyAndOSVer c family osVer = (major osVer >>= fun v => .ok (f, v, none))) ∨
    (family ∈ c.families ∧ ∃ f, f ∈ c.canonicalFamilies ∧
      formatFamilyAndOSVer c family osVer =
        (majorDotMinor osVer >>= fun v => .ok (f, v, none))) ∨
    (family = c.OpenSUSE ∧ osVer = "tumbleweed".toList ∧
      formatFamilyAndOSVer c family osVer = .ok (family, osVer, none)) ∨
    (family = c.Amazon ∧
      formatFamilyAndOSVer c family osVer =
        (getAmazonLinuxVer osVer >>= fun v => .ok (family, v, none))) := by
  unfold formatFamilyAndOSVer
  by_cases h1 : family = c.Debian
  · rw [if_pos h1]
    exact Or.inr (Or.inl ⟨(by simp [Config.families, h1]), _, (by simp [Config.canonicalFamilies, h1]), rfl⟩)
  rw [if_neg h1]
  by_cases h2 : family = c.Ubuntu
  · rw [if_pos h2]
    exact Or.inr (Or.inl ⟨(by simp [Config.families, h2]), _, (by simp [Config.canonicalFamilies, h2]), rfl⟩)
  rw [if_neg h2]
  by_cases h3 : family = c.Raspbian
  · rw [if_pos h3]
    exact Or.inr (Or.inl ⟨(by simp [Config.families, h3]), _, (by simp [Config.canonicalFamilies, h3]), rfl⟩)
  rw [if_neg h3]
  by_cases h4 : family = c.RedHat
  · rw [if_pos h4]
    exact Or.inr (Or.inl ⟨(by simp [Config.families, h4]), _, (by simp [Config.canonicalFamilies, h4]), rfl⟩)
  rw [if_neg h4]
  by_cases h5 : family = c.CentOS
  · rw [if_pos h5]
    exact Or.inr (Or.inl ⟨(by simp [Config.families, h5]), _, (by simp [Config.canonicalFamilies, h5]), rfl⟩)
  rw [if_neg h5]
  by_cases h6 : family = c.Oracle
  · rw [if_pos h6]
    exact Or.inr (Or.inl ⟨(by simp [Config.families, h6]), _, (by simp [Config.canonicalFamilies, h6]), rfl⟩)
  rw [if_neg h6]
  by_cases h7 : family = c.Amazon
  · rw [if_pos h7]
    exact Or.inr (Or.inr (Or.inr (Or.inr ⟨h7, rfl⟩)))
  rw [if_neg h7]
  by_cases h8 : family = c.Alpine
  · rw [if_pos h8]
    exact Or.inr (Or.inr (Or.inl ⟨(by simp [Config.families, h8]), _, (by simp [Config.canonicalFamilies, h8]), rfl⟩))
  rw [if_neg h8]
  by_cases h9 : family = c.Fedora
  · rw [if_pos h9]
    exact Or.inr (Or.inl ⟨(by simp [Config.families, h9]), _, (by simp [Config.canonicalFamilies, h9]), rfl⟩)
  rw [if_neg h9]
  by_cases h10 : family = c.OpenSUSE
  · rw [if_pos h10]
    by_cases ht : osVer ≠ "tumbleweed".toList
    · rw [if_pos ht]
      exact Or.inr (Or.inr (Or.inl ⟨(by simp [Config.families, h10]), _, (by simp [Config.canonicalFamilies, h10]), rfl⟩))
    · rw [if_neg ht]
      exact Or.inr (Or.inr (Or.inr (Or.inl ⟨h10, not_not.1 ht, rfl⟩)))
  rw [if_neg h10]
  by_cases h11 : family = c.OpenSUSELeap ∨ family = c.SUSEEnterpriseDesktop ∨
      family = c.SUSEEnterpriseServer
  · rw [if_pos h11]
    refine Or.inr (Or.inr (Or.inl ⟨?_, family, ?_, rfl⟩))
    · simp only [Config.families, List.mem_cons, List.mem_singleton]
      tauto
    · simp only [Config.canonicalFamilies, List.mem_cons, List.mem_singleton]
      tauto
  rw [if_neg h11]
  refine Or.inl ⟨?_, rfl⟩
  simp only [Config.families, List.mem_cons, List.mem_singleton, List.not_mem_nil, or_false]
  tauto

/-- C4: when `family` is none of the thirteen names of the switch,
`formatFamilyAndOSVer(family, osVer)` returns the empty family, the empty
version and the error "unknown os family"; when `family` is one of the
thirteen names, no triple it returns holds an error, and it does return a
triple with a nil error unless `family` is `amazon` and `osVer` has no
field. -/
theorem formatFamilyAndOSVer_error (c : Config) (family osVer : GoString) :
    (family ∉ c.families →
      formatFamilyAndOSVer c family osVer =
        .ok ([], [], some (unknownFamilyError family))) ∧
    (family ∈ c.families →
      (∀ f v e, formatFamilyAndOSVer c family osVer = .ok (f, v, e) → e = none) ∧
      (family ≠ c.Amazon ∨ Fields osVer ≠ [] →
        ∃ f v, formatFamilyAndOSVer c family osVer = .ok (f, v, none))) := by
  obtain ⟨m, hm⟩ := exists_major osVer
  obtain ⟨d, hd⟩ := exists_majorDotMinor osVer
  rcases formatFamilyAndOSVer_cases c family osVer with
    ⟨h, hr⟩ | ⟨h, f, _, hr⟩ | ⟨h, f, _, hr⟩ | ⟨h, _, hr⟩ | ⟨h, hr⟩
  · exact ⟨fun _ => hr, fun h' => absurd h' h⟩
  · rw [hm, ok_bind] at hr
    refine ⟨fun h' => absurd h h', fun _ => ⟨?_, fun _ => ⟨_, _, hr⟩⟩⟩
    intro f' v' e' hr'
    rw [hr] at hr'
    cases hr'
    rfl
  · rw [hd, ok_bind] at hr
    refine ⟨fun h' => absurd h h', fun _ => ⟨?_, fun _ => ⟨_, _, hr⟩⟩⟩
    intro f' v' e' hr'
    rw [hr] at hr'
    cases hr'
    rfl
  · have hmem : family ∈ c.families := by simp [Config.families, h]
    refine ⟨fun h' => absurd hmem h', fun _ => ⟨?_, fun _ => ⟨_, _, hr⟩⟩⟩
    intro f' v' e' hr'
    rw [hr] at hr'
    cases hr'
    rfl
  · have hmem : family ∈ c.families := by simp [Config.families, h]
    refine ⟨fun h' => absurd hmem h', fun _ => ⟨?_, ?_⟩⟩
    · intro f' v' e' hr'
      rw [hr] at hr'
      cases ha : getAmazonLinuxVer osVer with
      | error p =>
        rw [ha, error_bind] at hr'
        cases hr'
      | ok r =>
        rw [ha, ok_bind] at hr'
        cases hr'
        rfl
    · intro hA
      have hf : Fields osVer ≠ [] := by
        rcases hA with hA | hA
        · exact absurd h hA
        · exact hA
      obtain ⟨r, ha⟩ := exists_getAmazonLinuxVer osVer hf
      rw [ha, ok_bind] at hr
      exact ⟨_, _, hr⟩

/-- C4 at the family names of the spec: `"windows"` is none of them, `"debian"`
is one, and `"18.04"` has a field. -/
theorem formatFamilyAndOSVer_error_witness :
    ("windows".toList ∉ specConfig.families ∧
      formatFamilyAndOSVer specConfig "windows".toList "10".toList =
        .ok ([], [], some (unknownFamilyError "windows".toList))) ∧
    ("debian".toList ∈ specConfig.families ∧
      (∀ f v e, formatFamilyAndOSVer specConfig "debian".toList "18.04".toList = .ok (f, v, e) →
        e = none) ∧
      (("debian".toList ≠ specConfig.Amazon ∨ Fields "18.04".toList ≠ []) ∧
        ∃ f v, formatFamilyAndOSVer specConfig "debian".toList "18.04".toList =
          .ok (f, v, none))) :=
  ⟨⟨by decide,
      (formatFamilyAndOSVer_error specConfig "windows".toList "10".toList).1 (by decide)⟩,
    by decide,
    ((formatFamilyAndOSVer_error specConfig "debian".toList "18.04".toList).2 (by decide)).1,
    by decide,
    ((formatFamilyAndOSVer_error specConfig "debian".toList "18.04".toList).2 (by decide)).2
      (by decide)⟩

/-- With pairwise different, non-empty names, neither a canonical family name
nor the empty string is raspbian or centos. -/
theorem Config.WellFormed.canonical_ne {c : Config} (hc : c.WellFormed) (f : GoString)
    (hf : f ∈ c.canonicalFamilies ∨ f = []) : f ≠ c.Raspbian ∧ f ≠ c.CentOS := by
  have h2 := hc.1.pairwise
  have h3 := hc.2
  simp only [Config.families, List.pairwise_cons, List.mem_cons, List.mem_singleton,
    forall_eq_or_imp, forall_eq] at h2
  simp only [Config.families, List.mem_cons, List.mem_singleton, List.not_mem_nil,
    or_false, not_or] at h3
  simp only [Config.canonicalFamilies, List.mem_cons, List.mem_singleton, List.not_mem_nil,
    or_false] at hf
  rcases hf with (rfl | rfl | rfl | rfl | rfl | rfl | rfl | rfl | rfl | rfl | rfl) | rfl
  case inr => exact ⟨h3.2.2.1, h3.2.2.2.2.1⟩
  all_goals exact ⟨by simp [h2], by simp [h2]⟩

/-- C5: with pairwise different family names, `formatFamilyAndOSVer` keeps
the family and returns a nil error with `major(osVer)` for debian, ubuntu,
redhat, oracle and fedora, and with `majorDotMinor(osVer)` for alpine,
opensuse-leap, suse-desktop and suse-server. -/
theorem formatFamilyAndOSVer_table (c : Config) (hc : c.Distinct)
    (family osVer : GoString) :
    (family ∈ [c.Debian, c.Ubuntu, c.RedHat, c.Oracle, c.Fedora] →
      ∃ v, major osVer = .ok v ∧
        formatFamilyAndOSVer c family osVer = .ok (family, v, none)) ∧
    (family ∈ [c.Alpine, c.OpenSUSELeap, c.SUSEEnterpriseDesktop, c.SUSEEnterpriseServer] →
      ∃ v, majorDotMinor osVer = .ok v ∧
        formatFamilyAndOSVer c family osVer = .ok (family, v, none)) := by
  obtain ⟨m, hm⟩ := exists_major osVer
  obtain ⟨d, hd⟩ := exists_majorDotMinor osVer
  have h2 := hc.pairwise
  simp only [Config.families, List.pairwise_cons, List.mem_cons, List.mem_singleton,
    forall_eq_or_imp, forall_eq] at h2
  refine ⟨?_, ?_⟩
  · intro h
    refine ⟨m, hm, ?_⟩
    simp only [List.mem_cons, List.mem_singleton, List.not_mem_nil, or_false] at h
    rcases h with rfl | rfl | rfl | rfl | rfl <;>
      simp [formatFamilyAndOSVer, h2, hm, ok_bind]
  · intro h
    refine ⟨d, hd, ?_⟩
    simp only [List.mem_cons, List.mem_singleton, List.not_mem_nil, or_false] at h
    rcases h with rfl | rfl | rfl | rfl <;>
      simp [formatFamilyAndOSVer, h2, hd, ok_bind]

/-- C5 at the family names of the spec, for ubuntu "18.04" and for suse-server
"15.3.1". -/
theorem formatFamilyAndOSVer_table_witness :
    specConfig.Distinct ∧
    ("ubuntu".toList ∈ [specConfig.Debian, specConfig.Ubuntu, specConfig.RedHat,
        specConfig.Oracle, specConfig.Fedora] ∧
      ∃ v, major "18.04".toList = .ok v ∧
        formatFamilyAndOSVer specConfig "ubuntu".toList "18.04".toList =
          .ok ("ubuntu".toList, v, none)) ∧
    ("suse-server".toList ∈ [specConfig.Alpine, specConfig.OpenSUSELeap,
        specConfig.SUSEEnterpriseDesktop, specConfig.SUSEEnterpriseServer] ∧
      ∃ v, majorDotMinor "15.3.1".toList = .ok v ∧
        formatFamilyAndOSVer specConfig "suse-server".toList "15.3.1".toList =
          .ok ("suse-server".toList, v, none)) :=
  ⟨by decide,
    ⟨by decide,
      (formatFamilyAndOSVer_table specConfig (by decide) "ubuntu".toList "18.04".toList).1
        (by decide)⟩,
    ⟨by decide,
      (formatFamilyAndOSVer_table specConfig (by decide) "suse-server".toList
        "15.3.1".toList).2 (by decide)⟩⟩

/-- C6: with pairwise different, non-empty family names, raspbian is
normalised like debian and centos like redhat: for every `osVer` the four calls
return a nil error with `major(osVer)`, the family being debian for raspbian and
debian, and redhat for centos and redhat; and no call of `formatFamilyAndOSVer`
returns the family raspbian or centos. -/
theorem formatFamilyAndOSVer_alias (c : Config) (hc : c.WellFormed) (osVer : GoString) :
    (∃ v, major osVer = .ok v ∧
      formatFamilyAndOSVer c c.Raspbian osVer = .ok (c.Debian, v, none) ∧
      formatFamilyAndOSVer c c.Debian osVer = .ok (c.Debian, v, none) ∧
      formatFamilyAndOSVer c c.CentOS osVer = .ok (c.RedHat, v, none) ∧
      formatFamilyAndOSVer c c.RedHat osVer = .ok (c.RedHat, v, none)) ∧
    ∀ family f v e, formatFamilyAndOSVer c family osVer = .ok (f, v, e) →
      f ≠ c.Raspbian ∧ f ≠ c.CentOS := by
  obtain ⟨m, hm⟩ := exists_major osVer
  obtain ⟨d, hd⟩ := exists_majorDotMinor osVer
  have h2 := hc.1.pairwise
  simp only [Config.families, List.pairwise_cons, List.mem_cons, List.mem_singleton,
    forall_eq_or_imp, forall_eq] at h2
  refine ⟨⟨m, hm, ?_, ?_, ?_, ?_⟩, ?_⟩
  · simp [formatFamilyAndOSVer, h2, hm, ok_bind]
  · simp [formatFamilyAndOSVer, h2, hm, ok_bind]
  · simp [formatFamilyAndOSVer, h2, hm, ok_bind]
  · simp [formatFamilyAndOSVer, h2, hm, ok_bind]
  · intro family f v e hr
    rcases formatFamilyAndOSVer_cases c family osVer with
      ⟨_, hr'⟩ | ⟨_, f', hf', hr'⟩ | ⟨_, f', hf', hr'⟩ | ⟨h, _, hr'⟩ | ⟨h, hr'⟩
    · rw [hr'] at hr
      cases hr
      exact hc.canonical_ne _ (Or.inr rfl)
    · rw [hr', hm, ok_bind] at hr
      cases hr
      exact hc.canonical_ne _ (Or.inl hf')
    · rw [hr', hd, ok_bind] at hr
      cases hr
      exact hc.canonical_ne _ (Or.inl hf')
    · rw [hr'] at hr
      cases hr
      exact hc.canonical_ne _ (Or.inl (by simp [Config.canonicalFamilies, h]))
    · rw [hr'] at hr
      cases ha : getAmazonLinuxVer osVer with
      | error p =>
        rw [ha, error_bind] at hr
        cases hr
      | ok r =>
        rw [ha, ok_bind] at hr
        cases hr
        exact hc.canonical_ne _ (Or.inl (by simp [Config.canonicalFamilies, h]))

/-- C6 at the family names of the spec and `osVer = "7.9.2009"`. -/
theorem formatFamilyAndOSVer_alias_witness :
    specConfig.WellFormed ∧
    (∃ v, major "7.9.2009".toList = .ok v ∧
      formatFamilyAndOSVer specConfig "raspbian".toList "7.9.2009".toList =
        .ok ("debian".toList, v, none) ∧
      formatFamilyAndOSVer specConfig "debian".toList "7.9.2009".toList =
        .ok ("debian".toList, v, none) ∧
      formatFamilyAndOSVer specConfig "centos".toList "7.9.2009".toList =
        .ok ("redhat".toList, v, none) ∧
      formatFamilyAndOSVer specConfig "redhat".toList "7.9.2009".toList =
        .ok ("redhat".toList, v, none)) ∧
    ∀ family f v e, formatFamilyAndOSVer specConfig family "7.9.2009".toList = .ok (f, v, e) →
      f ≠ "raspbian".toList ∧ f ≠ "centos".toList :=
  ⟨by decide, formatFamilyAndOSVer_alias specConfig (by decide) "7.9.2009".toList⟩

/-- C7: with pairwise different family names, for the family opensuse
`formatFamilyAndOSVer` returns a nil error and the family opensuse, with the
version "tumbleweed" when `osVer` is exactly "tumbleweed", and with
`majorDotMinor(osVer)` for every other `osVer`. -/
theorem formatFamilyAndOSVer_opensuse (c : Config) (hc : c.Distinct) (osVer : GoString) :
    (osVer = "tumbleweed".toList →
      formatFamilyAndOSVer c c.OpenSUSE osVer =
        .ok (c.OpenSUSE, "tumbleweed".toList, none)) ∧
    (osVer ≠ "tumbleweed".toList →
      ∃ v, majorDotMinor osVer = .ok v ∧
        formatFamilyAndOSVer c c.OpenSUSE osVer = .ok (c.OpenSUSE, v, none)) := by
  obtain ⟨d, hd⟩ := exists_majorDotMinor osVer
  have h2 := hc.pairwise
  simp only [Config.families, List.pairwise_cons, List.mem_cons, List.mem_singleton,
    forall_eq_or_imp, forall_eq] at h2
  refine ⟨?_, ?_⟩
  · intro h
    subst h
    simp only [formatFamilyAndOSVer, h2, if_false, if_true, ne_eq, not_true_eq_false]
  · intro h
    refine ⟨d, hd, ?_⟩
    simp only [formatFamilyAndOSVer, h2, if_false, if_true, ne_eq, h, not_false_eq_true, hd,
      ok_bind]

/-- C7 at the family names of the spec, for "tumbleweed" and for "15.3.1". -/
theorem formatFamilyAndOSVer_opensuse_witness :
    specConfig.Distinct ∧
    formatFamilyAndOSVer specConfig "opensuse".toList "tumbleweed".toList =
      .ok ("opensuse".toList, "tumbleweed".toList, none) ∧
    ("15.3.1".toList ≠ "tumbleweed".toList ∧
      ∃ v, majorDotMinor "15.3.1".toList = .ok v ∧
        formatFamilyAndOSVer specConfig "opensuse".toList "15.3.1".toList =
          .ok ("opensuse".toList, v, none)) :=
  ⟨by decide,
    (formatFamilyAndOSVer_opensuse specConfig (by decide) "tumbleweed".toList).1 rfl,
    by decide,
    (formatFamilyAndOSVer_opensuse specConfig (by decide) "15.3.1".toList).2 (by decide)⟩

/-- C8, at the failing inputs: the empty string and a string of two blanks have
no field, so `ss[0]` in `getAmazonLinuxVer` panics with "index out of range [0]
with length 0" where the claim has the function return "1"; the panic goes
through `formatFamilyAndOSVer` for the family amazon. On the three strings of
the spec the function returns "2022", "2" and "1". -/
theorem getAmazonLinuxVer_panics_on_blank :
    Fields "".toList = [] ∧ Fields "  ".toList = [] ∧
    getAmazonLinuxVer "".toList = .error (.indexOutOfRange 0 0) ∧
    getAmazonLinuxVer "  ".toList = .error (.indexOutOfRange 0 0) ∧
    formatFamilyAndOSVer specConfig specConfig.Amazon "".toList =
      .error (.indexOutOfRange 0 0) ∧
    getAmazonLinuxVer "2022 (…)".toList = .ok "2022".toList ∧
    getAmazonLinuxVer "2 (2017.12)".toList = .ok "2".toList ∧
    getAmazonLinuxVer "something else".toList = .ok "1".toList := by
  decide

/-! ## `chunkSlice` without a positive chunk size -/

theorem chunkLoop_zero_chunkSize (length : Int) (h : 0 < length) (fuel : Nat) :
    chunkLoop length 0 fuel 0 = (List.replicate fuel ⟨0, 0⟩, false) := by
  have hw : wrapInt 0 = 0 := by decide
  have hat : chunkAt length 0 0 = ⟨0, 0⟩ := by
    have hn : ¬ length < 0 := by omega
    simp [chunkAt, hw, hn]
  induction fuel with
  | zero => simp [chunkLoop, h]
  | succ n ih =>
    rw [chunkLoop_succ_of_lt length 0 0 n h, Int.add_zero, hw, ih, hat]
    rfl

theorem chunkLoop_of_nonpos (length chunkSize : Int) (h : length ≤ 0) (fuel : Nat) :
    chunkLoop length chunkSize fuel 0 = ([], true) := by
  have hn : ¬ (0 : Int) < length := by omega
  cases fuel with
  | zero => simp [chunkLoop, hn]
  | succ n => simp [chunkLoop, hn]

/-- C19: `chunkSlice` does not guard `chunkSize`. For `chunkSize = 0` and
`length > 0` the loop has not ended after any number of iterations, so the
channel is never closed; after `fuel` iterations it has sent `fuel` chunks, all
of them the empty range `(0, 0)`, so for every `n` more than `n` chunks get
sent. For `length ≤ 0` and any `chunkSize` no chunk is sent and the channel is
closed. -/
theorem chunkSlice_zero_chunkSize (length : Int) :
    (0 < length →
      (∀ fuel, chunkSlice length 0 fuel = (List.replicate fuel ⟨0, 0⟩, false)) ∧
      (∀ fuel, ∀ c ∈ (chunkSlice length 0 fuel).1, c = ⟨0, 0⟩) ∧
      (∀ fuel, (chunkSlice length 0 fuel).2 = false) ∧
      ∀ n : Nat, ∃ fuel, n < (chunkSlice length 0 fuel).1.length) ∧
    (length ≤ 0 → ∀ chunkSize fuel, chunkSlice length chunkSize fuel = ([], true)) := by
  refine ⟨fun h => ?_, fun h chunkSize fuel => chunkLoop_of_nonpos length chunkSize h fuel⟩
  have e : ∀ fuel, chunkSlice length 0 fuel = (List.replicate fuel ⟨0, 0⟩, false) :=
    fun fuel => chunkLoop_zero_chunkSize length h fuel
  refine ⟨e, ?_, ?_, ?_⟩
  · intro fuel c hc
    rw [e] at hc
    exact List.eq_of_mem_replicate hc
  · intro fuel
    rw [e]
  · intro n
    refine ⟨n + 1, ?_⟩
    rw [e]
    simp

/-- C19 at `length = 5` with `chunkSize = 0`, and at `length = 0`. -/
theorem chunkSlice_zero_chunkSize_witness :
    ((0 : Int) < 5 ∧
      (∀ fuel, chunkSlice 5 0 fuel = (List.replicate fuel ⟨0, 0⟩, false)) ∧
      (∀ fuel, ∀ c ∈ (chunkSlice 5 0 fuel).1, c = ⟨0, 0⟩) ∧
      (∀ fuel, (chunkSlice 5 0 fuel).2 = false) ∧
      ∀ n : Nat, ∃ fuel, n < (chunkSlice 5 0 fuel).1.length) ∧
    ((0 : Int) ≤ 0 ∧ ∀ chunkSize fuel, chunkSlice 0 chunkSize fuel = ([], true)) :=
  ⟨⟨by decide, (chunkSlice_zero_chunkSize 5).1 (by decide)⟩,
    ⟨by decide, (chunkSlice_zero_chunkSize 0).2 (by decide)⟩⟩

/-! ## Claims on `filterByRedHatMajor` -/

/-- The model of `strings.Contains` decides "is a substring of". -/
theorem Contains_iff (s substr : GoString) : Contains s substr = true ↔ substr <:+: s := by
  induction s with
  | nil => simp [Contains]
  | cons c cs ih =>
    rw [Contains, Bool.or_eq_true, ih, List.infix_cons_iff, List.isPrefixOf_iff_prefix]

theorem foldl_append_if {α : Type} (keep : α → Bool) (l acc : List α) :
    l.foldl (fun filtered p => if keep p then filtered ++ [p] else filtered) acc =
      acc ++ l.filter keep := by
  induction l generalizing acc with
  | nil => simp
  | cons a l ih =>
    by_cases h : keep a
    · simp [List.foldl_cons, h, ih]
    · simp [List.foldl_cons, h, ih]

theorem filterByRedHatMajor_eq_filter {ρ : Type} (packs : List (Package ρ))
    (majorVer : GoString) :
    filterByRedHatMajor packs majorVer = packs.filter (matchesRedHatMajor majorVer) := by
  have hk : (fun p : Package ρ => Contains p.Version (".el".toList ++ majorVer) ||
      Contains p.Version (".module+el".toList ++ majorVer)) = matchesRedHatMajor majorVer := by
    funext p
    rw [Bool.eq_iff_iff]
    simp only [Bool.or_eq_true, Contains_iff, matchesRedHatMajor, decide_eq_true_eq]
  unfold filterByRedHatMajor
  rw [← hk]
  simpa using foldl_append_if (fun p : Package ρ =>
    Contains p.Version (".el".toList ++ majorVer) ||
      Contains p.Version (".module+el".toList ++ majorVer)) packs []

/-- C11: `filterByRedHatMajor(packs, majorVer)` is `packs` filtered, in order
and without change to the packages, by "the version contains the substring
`".el" ++ majorVer` or the substring `".module+el" ++ majorVer`": it is a
sublist of `packs`, and a package is in it exactly when it is in `packs` and
meets the condition. For the versions "1.0-1.el7", "1.0-1.el8" and
"1.0-1.module+el8_1" and `majorVer = "8"` the result is the last two
packages, in that order. -/
theorem filterByRedHatMajor_spec {ρ : Type} (packs : List (Package ρ))
    (majorVer : GoString) :
    filterByRedHatMajor packs majorVer =
      packs.filter (fun p => decide ((".el".toList ++ majorVer) <:+: p.Version ∨
        (".module+el".toList ++ majorVer) <:+: p.Version)) ∧
    (filterByRedHatMajor packs majorVer).Sublist packs ∧
    (∀ p, p ∈ filterByRedHatMajor packs majorVer ↔
      p ∈ packs ∧ ((".el".toList ++ majorVer) <:+: p.Version ∨
        (".module+el".toList ++ majorVer) <:+: p.Version)) ∧
    ∀ r1 r2 r3 : ρ,
      filterByRedHatMajor
          [⟨"1.0-1.el7".toList, r1⟩, ⟨"1.0-1.el8".toList, r2⟩,
            ⟨"1.0-1.module+el8_1".toList, r3⟩] "8".toList =
        [⟨"1.0-1.el8".toList, r2⟩, ⟨"1.0-1.module+el8_1".toList, r3⟩] := by
  have e := filterByRedHatMajor_eq_filter packs majorVer
  refine ⟨e, ?_, ?_, ?_⟩
  · rw [e]
    exact List.filter_sublist packs
  · intro p
    rw [e, List.mem_filter]
    simp only [matchesRedHatMajor, decide_eq_true_eq]
  · intro r1 r2 r3
    have v1 : ¬ ((".el".toList ++ "8".toList) <:+: "1.0-1.el7".toList ∨
        (".module+el".toList ++ "8".toList) <:+: "1.0-1.el7".toList) := by decide
    have v2 : (".el".toList ++ "8".toList) <:+: "1.0-1.el8".toList ∨
        (".module+el".toList ++ "8".toList) <:+: "1.0-1.el8".toList := by decide
    have v3 : (".el".toList ++ "8".toList) <:+: "1.0-1.module+el8_1".toList ∨
        (".module+el".toList ++ "8".toList) <:+: "1.0-1.module+el8_1".toList := by decide
    have h1 : matchesRedHatMajor "8".toList (⟨"1.0-1.el7".toList, r1⟩ : Package ρ) = false :=
      decide_eq_false v1
    have h2 : matchesRedHatMajor "8".toList (⟨"1.0-1.el8".toList, r2⟩ : Package ρ) = true :=
      decide_eq_true v2
    have h3 : matchesRedHatMajor "8".toList
        (⟨"1.0-1.module+el8_1".toList, r3⟩ : Package ρ) = true :=
      decide_eq_true v3
    rw [filterByRedHatMajor_eq_filter]
    simp only [List.filter_cons, List.filter_nil, h1, h2, h3, if_true, Bool.false_eq_true,
      if_false]

theorem filter_sublist_filter {α : Type} (p q : α → Bool) (h : ∀ a, p a = true → q a = true)
    (l : List α) : (l.filter p).Sublist (l.filter q) := by
  induction l with
  | nil => simp
  | cons a l ih =>
    by_cases hp : p a = true
    · simp only [List.filter_cons, hp, h a hp, if_true]
      exact ih.cons₂ a
    · by_cases hq : q a = true
      · simp only [List.filter_cons, hp, hq, if_true, if_false]
        exact ih.cons a
      · simp only [List.filter_cons, hp, hq, if_false]
        exact ih

theorem substring_of_append {l m s : GoString} (v : GoString)
    (h : (l ++ (m ++ s)) <:+: v) : (l ++ m) <:+: v := by
  obtain ⟨a, b, hab⟩ := h
  exact ⟨a, s ++ b, by simp only [← hab, List.append_assoc]⟩

/-- C20: the major version is matched as the beginning of what follows ".el":
for every list `packs` and all strings `m` and `s`, the packages kept for
`m ++ s` form a sublist of the packages kept for `m`, so each of them is kept
for `m` too. A package with the version "1.0-1.el10" is kept for "1" and for
"10". -/
theorem filterByRedHatMajor_mono {ρ : Type} (packs : List (Package ρ)) (m s : GoString) :
    (filterByRedHatMajor packs (m ++ s)).Sublist (filterByRedHatMajor packs m) ∧
    (∀ p ∈ filterByRedHatMajor packs (m ++ s), p ∈ filterByRedHatMajor packs m) ∧
    ∀ r : ρ,
      filterByRedHatMajor [(⟨"1.0-1.el10".toList, r⟩ : Package ρ)] "1".toList =
        [⟨"1.0-1.el10".toList, r⟩] ∧
      filterByRedHatMajor [(⟨"1.0-1.el10".toList, r⟩ : Package ρ)] "10".toList =
        [⟨"1.0-1.el10".toList, r⟩] := by
  have hsub : (filterByRedHatMajor packs (m ++ s)).Sublist (filterByRedHatMajor packs m) := by
    rw [filterByRedHatMajor_eq_filter, filterByRedHatMajor_eq_filter]
    apply filter_sublist_filter
    intro p hp
    simp only [matchesRedHatMajor, decide_eq_true_eq] at hp ⊢
    rcases hp with hp | hp
    · exact Or.inl (substring_of_append _ hp)
    · exact Or.inr (substring_of_append _ hp)
  refine ⟨hsub, fun p hp => hsub.subset hp, ?_⟩
  intro r
  have v1 : (".el".toList ++ "1".toList) <:+: "1.0-1.el10".toList ∨
      (".module+el".toList ++ "1".toList) <:+: "1.0-1.el10".toList := by decide
  have v2 : (".el".toList ++ "10".toList) <:+: "1.0-1.el10".toList ∨
      (".module+el".toList ++ "10".toList) <:+: "1.0-1.el10".toList := by decide
  have h1 : matchesRedHatMajor "1".toList (⟨"1.0-1.el10".toList, r⟩ : Package ρ) = true :=
    decide_eq_true v1
  have h2 : matchesRedHatMajor "10".toList (⟨"1.0-1.el10".toList, r⟩ : Package ρ) = true :=
    decide_eq_true v2
  rw [filterByRedHatMajor_eq_filter, filterByRedHatMajor_eq_filter]
  simp only [List.filter_cons, List.filter_nil, h1, h2, if_true, and_self]

/-! ## Claims on `newDB` and `NewDB` -/

/-- The factory returns a driver named `dbType` and a nil error, or no driver
and an error. -/
theorem newDB_cases (dl : Dialects) (dbType : GoString) :
    (∃ d, newDB dl dbType = (some d, none) ∧ d.name = dbType) ∨
    newDB dl dbType =
      (none, some (.new ("Invalid database dialect. dbType: ".toList ++ dbType))) := by
  unfold newDB
  by_cases h1 : dbType = dl.dialectSqlite3 ∨ dbType = dl.dialectMysql ∨
      dbType = dl.dialectPostgreSQL
  · rw [if_pos h1]
    exact Or.inl ⟨_, rfl, rfl⟩
  · rw [if_neg h1]
    by_cases h2 : dbType = dl.dialectRedis
    · rw [if_pos h2]
      exact Or.inl ⟨_, rfl, rfl⟩
    · rw [if_neg h2]
      exact Or.inr rfl

/-- The six ways through `NewDB`: the factory fails; `OpenDB` fails;
`IsGovalDictModelV1` fails; the schema is the one of version 1; `MigrateDB`
fails; all succeed. -/
theorem NewDB_cases {σ : Type} (dl : Dialects) (m : Methods σ) (dbType dbPath : GoString)
    (debugSQL : Bool) (option : DBOption) (s : σ) :
    (∃ e, newDB dl dbType = (none, some e) ∧
      NewDB dl m dbType dbPath debugSQL option s =
        .ok ⟨none, false, some (.wrap "Failed to new db. err: ".toList e), [], s⟩) ∨
    ∃ d, newDB dl dbType = (some d, none) ∧
      ((∃ l e s1, m.OpenDB d dbType dbPath debugSQL option s = ((l, some e), s1) ∧
          NewDB dl m dbType dbPath debugSQL option s =
            .ok ⟨none, l, some e, [.OpenDB dbType dbPath debugSQL option], s1⟩) ∨
        ∃ l s1, m.OpenDB d dbType dbPath debugSQL option s = ((l, none), s1) ∧
          ((∃ b e s2, m.IsGovalDictModelV1 d s1 = ((b, some e), s2) ∧
              NewDB dl m dbType dbPath debugSQL option s =
                .ok ⟨none, false,
                  some (.wrap "Failed to IsGovalDictModelV1. err: ".toList e),
                  [.OpenDB dbType dbPath debugSQL option, .IsGovalDictModelV1], s2⟩) ∨
            (∃ s2, m.IsGovalDictModelV1 d s1 = ((true, none), s2) ∧
              NewDB dl m dbType dbPath debugSQL option s =
                .ok ⟨none, false, some incompatibleSchemaError,
                  [.OpenDB dbType dbPath debugSQL option, .IsGovalDictModelV1], s2⟩) ∨
            ∃ s2, m.IsGovalDictModelV1 d s1 = ((false, none), s2) ∧
              ((∃ e s3, m.MigrateDB d s2 = (some e, s3) ∧
                  NewDB dl m dbType dbPath debugSQL option s =
                    .ok ⟨some d, false, some (.wrap "Failed to migrate db. err: ".toList e),
                      [.OpenDB dbType dbPath debugSQL option, .IsGovalDictModelV1,
                        .MigrateDB], s3⟩) ∨
                ∃ s3, m.MigrateDB d s2 = (none, s3) ∧
                  NewDB dl m dbType dbPath debugSQL option s =
                    .ok ⟨some d, false, none,
                      [.OpenDB dbType dbPath debugSQL option, .IsGovalDictModelV1,
                        .MigrateDB], s3⟩))) := by
  rcases newDB_cases dl dbType with ⟨d, hd, _⟩ | hd
  · refine Or.inr ⟨d, hd, ?_⟩
    rcases ho : m.OpenDB d dbType dbPath debugSQL option s with ⟨⟨l, _ | e⟩, s1⟩
    · refine Or.inr ⟨l, s1, rfl, ?_⟩
      rcases hv : m.IsGovalDictModelV1 d s1 with ⟨⟨b, _ | e⟩, s2⟩
      · cases b with
        | true =>
          refine Or.inr (Or.inl ⟨s2, rfl, ?_⟩)
          simp only [NewDB, hd, ho, hv]
        | false =>
          refine Or.inr (Or.inr ⟨s2, rfl, ?_⟩)
          rcases hg : m.MigrateDB d s2 with ⟨_ | e, s3⟩
          · refine Or.inr ⟨s3, rfl, ?_⟩
            simp only [NewDB, hd, ho, hv, hg]
          · refine Or.inl ⟨e, s3, rfl, ?_⟩
            simp only [NewDB, hd, ho, hv, hg]
      · refine Or.inl ⟨b, e, s2, rfl, ?_⟩
        simp only [NewDB, hd, ho, hv]
    · refine Or.inl ⟨l, e, s1, rfl, ?_⟩
      cases l <;> simp [NewDB, hd, ho]
  · refine Or.inl ⟨_, hd, ?_⟩
    simp only [NewDB, hd]

/-- C12: when the factory gives a driver, its `OpenDB` returns a nil error and
its `IsGovalDictModelV1` returns `(true, nil)`, `NewDB` returns a nil driver,
`locked = false` and a non-nil error (the error of the incompatible schema);
the calls made on the driver are `OpenDB` and `IsGovalDictModelV1`, so
`MigrateDB` is not called. -/
theorem NewDB_rejects_legacy {σ : Type} (dl : Dialects) (m : Methods σ)
    (dbType dbPath : GoString) (debugSQL : Bool) (option : DBOption) (s s1 s2 : σ)
    (d : Driver) (l : Bool)
    (hd : newDB dl dbType = (some d, none))
    (ho : m.OpenDB d dbType dbPath debugSQL option s = ((l, none), s1))
    (hv : m.IsGovalDictModelV1 d s1 = ((true, none), s2)) :
    ∃ r, NewDB dl m dbType dbPath debugSQL option s = .ok r ∧
      r.driver = none ∧ r.locked = false ∧ r.err ≠ none ∧
      r.err = some incompatibleSchemaError ∧
      r.calls = [.OpenDB dbType dbPath debugSQL option, .IsGovalDictModelV1] ∧
      Call.MigrateDB ∉ r.calls := by
  refine ⟨⟨none, false, some incompatibleSchemaError,
    [.OpenDB dbType dbPath debugSQL option, .IsGovalDictModelV1], s2⟩, ?_, rfl, rfl, ?_, rfl,
    rfl, ?_⟩
  · simp only [NewDB, hd, ho, hv]
  · simp
  · simp

/-- C12 for a relational driver whose store has the schema of version 1. -/
theorem NewDB_rejects_legacy_witness :
    ∃ r, NewDB specDialects (scripted (false, none) (true, none) none) "sqlite3".toList
        "oval.sqlite3".toList false ⟨0⟩ 0 = .ok r ∧
      r.driver = none ∧ r.locked = false ∧ r.err ≠ none ∧
      r.err = some incompatibleSchemaError ∧
      r.calls = [.OpenDB "sqlite3".toList "oval.sqlite3".toList false ⟨0⟩,
        .IsGovalDictModelV1] ∧
      Call.MigrateDB ∉ r.calls :=
  NewDB_rejects_legacy specDialects (scripted (false, none) (true, none) none)
    "sqlite3".toList "oval.sqlite3".toList false ⟨0⟩ 0 1 2 (.RDBDriver "sqlite3".toList) false
    (by decide) rfl rfl

/-- C13: when the factory gives a driver and its `OpenDB` returns a non-nil
error with the flag `l`, `NewDB` returns a nil driver, the flag `l` as `locked`
and a non-nil error (the error of `OpenDB`); the only call made on the driver
is that one `OpenDB`: no `IsGovalDictModelV1`, no `MigrateDB`, no second
`OpenDB`. -/
theorem NewDB_open_failure {σ : Type} (dl : Dialects) (m : Methods σ)
    (dbType dbPath : GoString) (debugSQL : Bool) (option : DBOption) (s s1 : σ)
    (d : Driver) (l : Bool) (e : GoError)
    (hd : newDB dl dbType = (some d, none))
    (ho : m.OpenDB d dbType dbPath debugSQL option s = ((l, some e), s1)) :
    ∃ r, NewDB dl m dbType dbPath debugSQL option s = .ok r ∧
      r.driver = none ∧ r.locked = l ∧ r.err ≠ none ∧ r.err = some e ∧
      r.calls = [.OpenDB dbType dbPath debugSQL option] ∧
      Call.IsGovalDictModelV1 ∉ r.calls ∧ Call.MigrateDB ∉ r.calls := by
  refine ⟨⟨none, l, some e, [.OpenDB dbType dbPath debugSQL option], s1⟩, ?_, rfl, rfl, ?_,
    rfl, rfl, ?_, ?_⟩
  · cases l <;> simp [NewDB, hd, ho]
  · simp
  · simp
  · simp

/-- C13 for a store that is locked by another process. -/
theorem NewDB_open_failure_witness :
    ∃ r, NewDB specDialects
        (scripted (true, some (.new "database is locked".toList)) (false, none) none)
        "sqlite3".toList "oval.sqlite3".toList false ⟨0⟩ 0 = .ok r ∧
      r.driver = none ∧ r.locked = true ∧ r.err ≠ none ∧
      r.err = some (.new "database is locked".toList) ∧
      r.calls = [.OpenDB "sqlite3".toList "oval.sqlite3".toList false ⟨0⟩] ∧
      Call.IsGovalDictModelV1 ∉ r.calls ∧ Call.MigrateDB ∉ r.calls :=
  NewDB_open_failure specDialects
    (scripted (true, some (.new "database is locked".toList)) (false, none) none)
    "sqlite3".toList "oval.sqlite3".toList false ⟨0⟩ 0 1 (.RDBDriver "sqlite3".toList) true
    (.new "database is locked".toList) (by decide) rfl

/-- C14: `NewDB` returns, and its error is nil exactly when the factory gives
a driver, `OpenDB` returns a nil error, `IsGovalDictModelV1` then returns
`(false, nil)` and `MigrateDB` then returns a nil error; in that case the
driver returned is the one the factory built, `locked` is `false`, and the calls
made on the driver are `OpenDB`, `IsGovalDictModelV1`, `MigrateDB`, once each
and in that order. -/
theorem NewDB_success_iff {σ : Type} (dl : Dialects) (m : Methods σ)
    (dbType dbPath : GoString) (debugSQL : Bool) (option : DBOption) (s : σ) :
    ∃ r, NewDB dl m dbType dbPath debugSQL option s = .ok r ∧
      (r.err = none ↔
        ∃ d, newDB dl dbType = (some d, none) ∧
          (m.OpenDB d dbType dbPath debugSQL option s).1.2 = none ∧
          (m.IsGovalDictModelV1 d (m.OpenDB d dbType dbPath debugSQL option s).2).1 =
            (false, none) ∧
          (m.MigrateDB d (m.IsGovalDictModelV1 d
            (m.OpenDB d dbType dbPath debugSQL option s).2).2).1 = none) ∧
      (r.err = none →
        r.driver = (newDB dl dbType).1 ∧ r.driver ≠ none ∧ r.locked = false ∧
        r.calls = [.OpenDB dbType dbPath debugSQL option, .IsGovalDictModelV1,
          .MigrateDB]) := by
  rcases NewDB_cases dl m dbType dbPath debugSQL option s with
    ⟨e, hd, hr⟩ | ⟨d, hd, ⟨l, e, s1, ho, hr⟩ | ⟨l, s1, ho, ⟨b, e, s2, hv, hr⟩ |
      ⟨s2, hv, hr⟩ | ⟨s2, hv, ⟨e, s3, hg, hr⟩ | ⟨s3, hg, hr⟩⟩⟩⟩
  · refine ⟨_, hr, ?_, ?_⟩
    · simp [hd]
    · simp
  · refine ⟨_, hr, ?_, ?_⟩
    · simp [hd, ho]
    · simp
  · refine ⟨_, hr, ?_, ?_⟩
    · simp [hd, ho, hv]
    · simp
  · refine ⟨_, hr, ?_, ?_⟩
    · simp [hd, ho, hv]
    · simp
  · refine ⟨_, hr, ?_, ?_⟩
    · simp [hd, ho, hv, hg]
    · simp
  · refine ⟨_, hr, ?_, ?_⟩
    · simp [hd, ho, hv, hg]
    · simp [hd]

/-- C14 for a relational driver whose three calls succeed. -/
theorem NewDB_success_iff_witness :
    NewDB specDialects (scripted (false, none) (false, none) none) "sqlite3".toList
        "oval.sqlite3".toList false ⟨0⟩ 0 =
      .ok ⟨some (.RDBDriver "sqlite3".toList), false, none,
        [.OpenDB "sqlite3".toList "oval.sqlite3".toList false ⟨0⟩, .IsGovalDictModelV1,
          .MigrateDB], 3⟩ ∧
    ∃ r, NewDB specDialects (scripted (false, none) (false, none) none) "sqlite3".toList
        "oval.sqlite3".toList false ⟨0⟩ 0 = .ok r ∧
      (r.err = none ↔
        ∃ d, newDB specDialects "sqlite3".toList = (some d, none) ∧
          ((scripted (false, none) (false, none) none).OpenDB d "sqlite3".toList
            "oval.sqlite3".toList false ⟨0⟩ 0).1.2 = none ∧
          ((scripted (false, none) (false, none) none).IsGovalDictModelV1 d
            ((scripted (false, none) (false, none) none).OpenDB d "sqlite3".toList
              "oval.sqlite3".toList false ⟨0⟩ 0).2).1 = (false, none) ∧
          ((scripted (false, none) (false, none) none).MigrateDB d
            ((scripted (false, none) (false, none) none).IsGovalDictModelV1 d
              ((scripted (false, none) (false, none) none).OpenDB d "sqlite3".toList
                "oval.sqlite3".toList false ⟨0⟩ 0).2).2).1 = none) ∧
      (r.err = none →
        r.driver = (newDB specDialects "sqlite3".toList).1 ∧ r.driver ≠ none ∧
        r.locked = false ∧
        r.calls = [.OpenDB "sqlite3".toList "oval.sqlite3".toList false ⟨0⟩,
          .IsGovalDictModelV1, .MigrateDB]) :=
  ⟨by decide,
    NewDB_success_iff specDialects (scripted (false, none) (false, none) none)
      "sqlite3".toList "oval.sqlite3".toList false ⟨0⟩ 0⟩

/-- C15, as stated, fails: the error of a failing `OpenDB` is returned as it
is, not wrapped in a message that names the stage; and the error for a store
with the schema of version 1 is a new error, with no underlying cause in its
chain. -/
theorem NewDB_wraps_counterexample :
    (∃ r, NewDB specDialects
          (scripted (false, some (.new "disk I/O error".toList)) (false, none) none)
          "sqlite3".toList "oval.sqlite3".toList false ⟨0⟩ 0 = .ok r ∧
        r.err = some (.new "disk I/O error".toList) ∧
        ∀ msg cause, r.err ≠ some (.wrap msg cause)) ∧
    (∃ r, NewDB specDialects (scripted (false, none) (true, none) none)
          "sqlite3".toList "oval.sqlite3".toList false ⟨0⟩ 0 = .ok r ∧
        r.err = some incompatibleSchemaError ∧
        incompatibleSchemaError.chain = [incompatibleSchemaError] ∧
        ∀ msg cause, r.err ≠ some (.wrap msg cause)) := by
  refine ⟨⟨⟨none, false, some (.new "disk I/O error".toList),
      [.OpenDB "sqlite3".toList "oval.sqlite3".toList false ⟨0⟩], 1⟩, by decide, rfl, ?_⟩,
    ⟨⟨none, false, some incompatibleSchemaError,
      [.OpenDB "sqlite3".toList "oval.sqlite3".toList false ⟨0⟩, .IsGovalDictModelV1], 2⟩,
      by decide, rfl, rfl, ?_⟩⟩
  · intro msg cause h
    cases h
  · intro msg cause h
    simp only [incompatibleSchemaError] at h
    cases h

theorem mem_chain_self (e : GoError) : e ∈ e.chain := by
  cases e <;> simp [GoError.chain]

theorem mem_chain_wrap (msg : GoString) (e : GoError) : e ∈ (GoError.wrap msg e).chain := by
  simp [GoError.chain, mem_chain_self]

/-- C15, amended: `NewDB` returns, no error of a stage is swallowed, and the
chain of the error returned contains the original error. The error of the
factory, of `IsGovalDictModelV1` and of `MigrateDB` is returned wrapped in a
message that names the stage ("Failed to new db", "Failed to
IsGovalDictModelV1", "Failed to migrate db"); for the error of `OpenDB` the
error returned is non-nil and has it in its chain. For a store with the schema
of version 1 the error is a new one, without a cause. -/
theorem NewDB_error_chain {σ : Type} (dl : Dialects) (m : Methods σ)
    (dbType dbPath : GoString) (debugSQL : Bool) (option : DBOption) (s : σ) :
    ∃ r, NewDB dl m dbType dbPath debugSQL option s = .ok r ∧
      (∀ e, newDB dl dbType = (none, some e) →
        r.err = some (.wrap "Failed to new db. err: ".toList e) ∧
        ∃ e', r.err = some e' ∧ e ∈ e'.chain) ∧
      (∀ d l e s1, newDB dl dbType = (some d, none) →
        m.OpenDB d dbType dbPath debugSQL option s = ((l, some e), s1) →
        r.err ≠ none ∧ ∃ e', r.err = some e' ∧ e ∈ e'.chain) ∧
      (∀ d l s1 b e s2, newDB dl dbType = (some d, none) →
        m.OpenDB d dbType dbPath debugSQL option s = ((l, none), s1) →
        m.IsGovalDictModelV1 d s1 = ((b, some e), s2) →
        r.err = some (.wrap "Failed to IsGovalDictModelV1. err: ".toList e) ∧
        ∃ e', r.err = some e' ∧ e ∈ e'.chain) ∧
      (∀ d l s1 s2, newDB dl dbType = (some d, none) →
        m.OpenDB d dbType dbPath debugSQL option s = ((l, none), s1) →
        m.IsGovalDictModelV1 d s1 = ((true, none), s2) →
        r.err = some incompatibleSchemaError) ∧
      (∀ d l s1 s2 e s3, newDB dl dbType = (some d, none) →
        m.OpenDB d dbType dbPath debugSQL option s = ((l, none), s1) →
        m.IsGovalDictModelV1 d s1 = ((false, none), s2) →
        m.MigrateDB d s2 = (some e, s3) →
        r.err = some (.wrap "Failed to migrate db. err: ".toList e) ∧
        ∃ e', r.err = some e' ∧ e ∈ e'.chain) := by
  rcases NewDB_cases dl m dbType dbPath debugSQL option s with
    ⟨e, hd, hr⟩ | ⟨d, hd, ⟨l, e, s1, ho, hr⟩ | ⟨l, s1, ho, ⟨b, e, s2, hv, hr⟩ |
      ⟨s2, hv, hr⟩ | ⟨s2, hv, ⟨e, s3, hg, hr⟩ | ⟨s3, hg, hr⟩⟩⟩⟩
  · refine ⟨_, hr, ?_, ?_, ?_, ?_, ?_⟩
    · intro e' he'
      rw [hd] at he'
      cases he'
      exact ⟨rfl, _, rfl, mem_chain_wrap _ _⟩
    all_goals
      intros
      simp_all
  · refine ⟨_, hr, ?_, ?_, ?_, ?_, ?_⟩
    · intro e' he'
      simp [hd] at he'
    · intro d' l' e' s1' hd' ho'
      rw [hd] at hd'
      cases hd'
      rw [ho] at ho'
      cases ho'
      exact ⟨by simp, _, rfl, mem_chain_self _⟩
    all_goals
      intros
      simp_all
  · refine ⟨_, hr, ?_, ?_, ?_, ?_, ?_⟩
    · intro e' he'
      simp [hd] at he'
    · intros
      simp_all
    · intro d' l' s1' b' e' s2' hd' ho' hv'
      rw [hd] at hd'
      cases hd'
      rw [ho] at ho'
      cases ho'
      rw [hv] at hv'
      cases hv'
      exact ⟨rfl, _, rfl, mem_chain_wrap _ _⟩
    all_goals
      intros
      simp_all
  · refine ⟨_, hr, ?_, ?_, ?_, ?_, ?_⟩
    · intro e' he'
      simp [hd] at he'
    · intros
      simp_all
    · intros
      simp_all
    · intros
      rfl
    · intros
      simp_all
  · refine ⟨_, hr, ?_, ?_, ?_, ?_, ?_⟩
    · intro e' he'
      simp [hd] at he'
    · intros
      simp_all
    · intros
      simp_all
    · intros
      simp_all
    · intro d' l' s1' s2' e' s3' hd' ho' hv' hg'
      rw [hd] at hd'
      cases hd'
      rw [ho] at ho'
      cases ho'
      rw [hv] at hv'
      cases hv'
      rw [hg] at hg'
      cases hg'
      exact ⟨rfl, _, rfl, mem_chain_wrap _ _⟩
  · refine ⟨_, hr, ?_, ?_, ?_, ?_, ?_⟩
    · intro e' he'
      simp [hd] at he'
    all_goals
      intros
      simp_all

/-- C15, amended, for a key-value driver whose `MigrateDB` fails. -/
theorem NewDB_error_chain_witness :
    ∃ r, NewDB specDialects (scripted (false, none) (false, none)
          (some (.new "no space left".toList)))
        "redis".toList "redis://localhost".toList false ⟨0⟩ 0 = .ok r ∧
      r.err = some (.wrap "Failed to migrate db. err: ".toList (.new "no space left".toList)) ∧
      ∃ e', r.err = some e' ∧ GoError.new "no space left".toList ∈ e'.chain := by
  obtain ⟨r, hr, _, _, _, _, h5⟩ := NewDB_error_chain specDialects
    (scripted (false, none) (false, none) (some (.new "no space left".toList)))
    "redis".toList "redis://localhost".toList false ⟨0⟩ 0
  exact ⟨r, hr, h5 (.RedisDriver "redis".toList) false 1 2 (.new "no space left".toList) 3
    (by decide) rfl rfl rfl⟩

/-- C16: with pairwise different type tags, `newDB(dbType)` returns an
`RDBDriver` named `dbType` and a nil error for the three relational tags, a
`RedisDriver` named `dbType` and a nil error for the redis tag, and no driver
and an error for every other `dbType`; in that last case `NewDB` returns a nil
driver, `locked = false` and that error wrapped, makes no call on a driver and
leaves the state as it is. -/
theorem newDB_dispatch (dl : Dialects) (hdl : dl.Distinct) (dbType : GoString) :
    (dbType ∈ [dl.dialectSqlite3, dl.dialectMysql, dl.dialectPostgreSQL] →
      newDB dl dbType = (some (.RDBDriver dbType), none) ∧
      (Driver.RDBDriver dbType).name = dbType) ∧
    (dbType = dl.dialectRedis →
      newDB dl dbType = (some (.RedisDriver dbType), none) ∧
      (Driver.RedisDriver dbType).name = dbType) ∧
    (dbType ∉ [dl.dialectSqlite3, dl.dialectMysql, dl.dialectPostgreSQL, dl.dialectRedis] →
      newDB dl dbType =
        (none, some (.new ("Invalid database dialect. dbType: ".toList ++ dbType))) ∧
      ∀ (σ : Type) (m : Methods σ) (dbPath : GoString) (debugSQL : Bool) (option : DBOption)
        (s : σ),
        NewDB dl m dbType dbPath debugSQL option s =
          .ok ⟨none, false,
            some (.wrap "Failed to new db. err: ".toList
              (.new ("Invalid database dialect. dbType: ".toList ++ dbType))), [], s⟩) := by
  have h2 : [dl.dialectSqlite3, dl.dialectMysql, dl.dialectPostgreSQL,
      dl.dialectRedis].Pairwise (fun a b => ¬ a = b ∧ ¬ b = a) :=
    List.Pairwise.imp (fun h => ⟨h, Ne.symm h⟩) hdl
  simp only [List.pairwise_cons, List.mem_cons, List.mem_singleton, forall_eq_or_imp,
    forall_eq] at h2
  refine ⟨?_, ?_, ?_⟩
  · intro h
    simp only [List.mem_cons, List.mem_singleton, List.not_mem_nil, or_false] at h
    exact ⟨by simp only [newDB, h, if_true], rfl⟩
  · intro h
    subst h
    exact ⟨by simp [newDB, h2], rfl⟩
  · intro h
    simp only [List.mem_cons, List.mem_singleton, List.not_mem_nil, or_false, not_or] at h
    have hn : newDB dl dbType =
        (none, some (.new ("Invalid database dialect. dbType: ".toList ++ dbType))) := by
      simp [newDB, h]
    refine ⟨hn, ?_⟩
    intro σ m dbPath debugSQL option s
    simp only [NewDB, hn]

/-- C16 at the four usual tags and at the unknown tag "oracle". -/
theorem newDB_dispatch_witness :
    specDialects.Distinct ∧
    ("mysql".toList ∈ [specDialects.dialectSqlite3, specDialects.dialectMysql,
        specDialects.dialectPostgreSQL] ∧
      newDB specDialects "mysql".toList = (some (.RDBDriver "mysql".toList), none) ∧
      (Driver.RDBDriver "mysql".toList).name = "mysql".toList) ∧
    ("redis".toList = specDialects.dialectRedis ∧
      newDB specDialects "redis".toList = (some (.RedisDriver "redis".toList), none) ∧
      (Driver.RedisDriver "redis".toList).name = "redis".toList) ∧
    ("oracle".toList ∉ [specDialects.dialectSqlite3, specDialects.dialectMysql,
        specDialects.dialectPostgreSQL, specDialects.dialectRedis] ∧
      newDB specDialects "oracle".toList =
        (none, some (.new ("Invalid database dialect. dbType: ".toList ++ "oracle".toList))) ∧
      ∀ (σ : Type) (m : Methods σ) (dbPath : GoString) (debugSQL : Bool) (option : DBOption)
        (s : σ),
        NewDB specDialects m "oracle".toList dbPath debugSQL option s =
          .ok ⟨none, false,
            some (.wrap "Failed to new db. err: ".toList
              (.new ("Invalid database dialect. dbType: ".toList ++ "oracle".toList))),
            [], s⟩) :=
  ⟨by decide,
    ⟨by decide, (newDB_dispatch specDialects (by decide) "mysql".toList).1 (by decide)⟩,
    ⟨by decide, (newDB_dispatch specDialects (by decide) "redis".toList).2.1 (by decide)⟩,
    ⟨by decide, (newDB_dispatch specDialects (by decide) "oracle".toList).2.2 (by decide)⟩⟩

/-- C18: `NewDB` returns; when `MigrateDB` returns an error, it returns the
driver the factory built, `locked = false` and that error wrapped; when the
factory fails, `OpenDB` fails, `IsGovalDictModelV1` fails or the schema is the
one of version 1, the error is non-nil and the driver returned is nil. So an
error comes with a non-nil driver only after a call of `MigrateDB`. -/
theorem NewDB_failure_driver {σ : Type} (dl : Dialects) (m : Methods σ)
    (dbType dbPath : GoString) (debugSQL : Bool) (option : DBOption) (s : σ) :
    ∃ r, NewDB dl m dbType dbPath debugSQL option s = .ok r ∧
      (∀ d l s1 s2 e s3, newDB dl dbType = (some d, none) →
        m.OpenDB d dbType dbPath debugSQL option s = ((l, none), s1) →
        m.IsGovalDictModelV1 d s1 = ((false, none), s2) →
        m.MigrateDB d s2 = (some e, s3) →
        r.driver = some d ∧ r.locked = false ∧
        r.err = some (.wrap "Failed to migrate db. err: ".toList e)) ∧
      (∀ e, newDB dl dbType = (none, some e) → r.err ≠ none ∧ r.driver = none) ∧
      (∀ d l e s1, newDB dl dbType = (some d, none) →
        m.OpenDB d dbType dbPath debugSQL option s = ((l, some e), s1) →
        r.err ≠ none ∧ r.driver = none) ∧
      (∀ d l s1 b e s2, newDB dl dbType = (some d, none) →
        m.OpenDB d dbType dbPath debugSQL option s = ((l, none), s1) →
        m.IsGovalDictModelV1 d s1 = ((b, some e), s2) →
        r.err ≠ none ∧ r.driver = none) ∧
      (∀ d l s1 s2, newDB dl dbType = (some d, none) →
        m.OpenDB d dbType dbPath debugSQL option s = ((l, none), s1) →
        m.IsGovalDictModelV1 d s1 = ((true, none), s2) →
        r.err ≠ none ∧ r.driver = none) ∧
      (r.err ≠ none → r.driver ≠ none → Call.MigrateDB ∈ r.calls) := by
  rcases NewDB_cases dl m dbType dbPath debugSQL option s with
    ⟨e, hd, hr⟩ | ⟨d, hd, ⟨l, e, s1, ho, hr⟩ | ⟨l, s1, ho, ⟨b, e, s2, hv, hr⟩ |
      ⟨s2, hv, hr⟩ | ⟨s2, hv, ⟨e, s3, hg, hr⟩ | ⟨s3, hg, hr⟩⟩⟩⟩
  all_goals
    refine ⟨_, hr, ?_, ?_, ?_, ?_, ?_, ?_⟩
    all_goals
      intros
      simp_all

/-- C18 for a relational driver whose `MigrateDB` fails. -/
theorem NewDB_failure_driver_witness :
    ∃ r, NewDB specDialects (scripted (false, none) (false, none)
          (some (.new "no space left".toList)))
        "sqlite3".toList "oval.sqlite3".toList false ⟨0⟩ 0 = .ok r ∧
      r.driver = some (.RDBDriver "sqlite3".toList) ∧ r.locked = false ∧
      r.err = some (.wrap "Failed to migrate db. err: ".toList (.new "no space left".toList)) := by
  obtain ⟨r, hr, h1, _⟩ := NewDB_failure_driver specDialects
    (scripted (false, none) (false, none) (some (.new "no space left".toList)))
    "sqlite3".toList "oval.sqlite3".toList false ⟨0⟩ 0
  exact ⟨r, hr, h1 (.RDBDriver "sqlite3".toList) false 1 2 (.new "no space left".toList) 3
    (by decide) rfl rfl rfl⟩

/-! ## Normalising a normalised key -/

theorem major_of_not_mem (v : GoString) (h : '.' ∉ v) : major v = .ok v := by
  simp only [major, Split_of_not_mem v '.' h, index_zero_cons]

theorem not_mem_of_major (v r : GoString) (h : major v = .ok r) : '.' ∉ r := by
  rcases exists_first_sep v '.' with h0 | ⟨a, rest, ha, rfl⟩
  · rw [major_of_not_mem v h0] at h
    cases h
    exact h0
  · simp only [major, Split_append_sep a rest '.' ha, index_zero_cons] at h
    cases h
    exact ha

theorem major_idem (v r : GoString) (h : major v = .ok r) : major r = .ok r :=
  major_of_not_mem r (not_mem_of_major v r h)

theorem majorDotMinor_idem (v r : GoString) (h : majorDotMinor v = .ok r) :
    majorDotMinor r = .ok r := by
  rcases exists_first_sep v '.' with h0 | ⟨a, r1, ha, rfl⟩
  · have e := majorDotMinor_of_short v (by rw [Split_of_not_mem v '.' h0]; simp)
    rw [e] at h
    cases h
    exact e
  · rcases exists_first_sep r1 '.' with h1 | ⟨b, rest, hb, rfl⟩
    · have e := majorDotMinor_of_short (a ++ '.' :: r1)
        (by rw [Split_append_sep a r1 '.' ha, Split_of_not_mem r1 '.' h1]; simp)
      rw [e] at h
      cases h
      exact e
    · have hs : Split (a ++ '.' :: (b ++ '.' :: rest)) '.' = a :: b :: Split rest '.' := by
        rw [Split_append_sep _ _ _ ha, Split_append_sep _ _ _ hb]
      rw [majorDotMinor_of_long _ a b _ hs (Split_ne_nil rest '.')] at h
      cases h
      exact majorDotMinor_of_short (a ++ '.' :: b)
        (by rw [Split_append_sep a b '.' ha, Split_of_not_mem b '.' hb]; simp)

theorem getAmazonLinuxVer_idem (v r : GoString) (h : getAmazonLinuxVer v = .ok r) :
    getAmazonLinuxVer r = .ok r := by
  cases hf : Fields v with
  | nil =>
    rw [getAmazonLinuxVer_of_blank v hf] at h
    cases h
  | cons t ts =>
    rw [getAmazonLinuxVer_of_fields v t ts hf] at h
    split_ifs at h <;> cases h <;> decide

theorem formatFamilyAndOSVer_of_major (c : Config) (hc : c.Distinct)
    (family osVer r : GoString)
    (hf : family ∈ [c.Debian, c.Ubuntu, c.RedHat, c.Oracle, c.Fedora])
    (hr : major osVer = .ok r) :
    formatFamilyAndOSVer c family osVer = .ok (family, r, none) := by
  have h2 := hc.pairwise
  simp only [Config.families, List.pairwise_cons, List.mem_cons, List.mem_singleton,
    forall_eq_or_imp, forall_eq] at h2
  simp only [List.mem_cons, List.mem_singleton, List.not_mem_nil, or_false] at hf
  rcases hf with rfl | rfl | rfl | rfl | rfl <;>
    simp [formatFamilyAndOSVer, h2, hr, ok_bind]

theorem formatFamilyAndOSVer_of_alias (c : Config) (hc : c.Distinct) (osVer r : GoString)
    (hr : major osVer = .ok r) :
    formatFamilyAndOSVer c c.Raspbian osVer = .ok (c.Debian, r, none) ∧
    formatFamilyAndOSVer c c.CentOS osVer = .ok (c.RedHat, r, none) := by
  have h2 := hc.pairwise
  simp only [Config.families, List.pairwise_cons, List.mem_cons, List.mem_singleton,
    forall_eq_or_imp, forall_eq] at h2
  constructor <;> simp [formatFamilyAndOSVer, h2, hr, ok_bind]

theorem formatFamilyAndOSVer_of_majorDotMinor (c : Config) (hc : c.Distinct)
    (family osVer r : GoString)
    (hf : family ∈ [c.Alpine, c.OpenSUSELeap, c.SUSEEnterpriseDesktop,
      c.SUSEEnterpriseServer])
    (hr : majorDotMinor osVer = .ok r) :
    formatFamilyAndOSVer c family osVer = .ok (family, r, none) := by
  have h2 := hc.pairwise
  simp only [Config.families, List.pairwise_cons, List.mem_cons, List.mem_singleton,
    forall_eq_or_imp, forall_eq] at h2
  simp only [List.mem_cons, List.mem_singleton, List.not_mem_nil, or_false] at hf
  rcases hf with rfl | rfl | rfl | rfl <;>
    simp [formatFamilyAndOSVer, h2, hr, ok_bind]

theorem formatFamilyAndOSVer_of_amazon (c : Config) (hc : c.Distinct) (osVer : GoString) :
    formatFamilyAndOSVer c c.Amazon osVer =
      (getAmazonLinuxVer osVer >>= fun v => .ok (c.Amazon, v, none)) := by
  have h2 := hc.pairwise
  simp only [Config.families, List.pairwise_cons, List.mem_cons, List.mem_singleton,
    forall_eq_or_imp, forall_eq] at h2
  simp only [formatFamilyAndOSVer, h2, if_false, if_true]

theorem formatFamilyAndOSVer_of_opensuse (c : Config) (hc : c.Distinct) (osVer r : GoString)
    (hr : majorDotMinor osVer = .ok r) :
    formatFamilyAndOSVer c c.OpenSUSE osVer =
      .ok (c.OpenSUSE, if osVer = "tumbleweed".toList then osVer else r, none) := by
  have h2 := hc.pairwise
  simp only [Config.families, List.pairwise_cons, List.mem_cons, List.mem_singleton,
    forall_eq_or_imp, forall_eq] at h2
  by_cases ht : osVer = "tumbleweed".toList
  · simp only [formatFamilyAndOSVer, h2, if_false, if_true, ne_eq, ht, not_true_eq_false]
  · simp only [formatFamilyAndOSVer, h2, if_false, if_true, ne_eq, ht, not_false_eq_true, hr,
      ok_bind]

/-- C17: with pairwise different family names, a key that
`formatFamilyAndOSVer` returns with a nil error is a fixed point: normalising
`(f, v)` again returns `(f, v)` with a nil error. -/
theorem formatFamilyAndOSVer_idempotent (c : Config) (hc : c.Distinct)
    (family osVer f v : GoString)
    (h : formatFamilyAndOSVer c family osVer = .ok (f, v, none)) :
    formatFamilyAndOSVer c f v = .ok (f, v, none) := by
  obtain ⟨m, hm⟩ := exists_major osVer
  obtain ⟨d, hd⟩ := exists_majorDotMinor osVer
  by_cases hmem : family ∈ c.families
  · have hg : family ∈ [c.Debian, c.Ubuntu, c.RedHat, c.Oracle, c.Fedora] ∨
        family = c.Raspbian ∨ family = c.CentOS ∨ family = c.Amazon ∨
        family ∈ [c.Alpine, c.OpenSUSELeap, c.SUSEEnterpriseDesktop,
          c.SUSEEnterpriseServer] ∨ family = c.OpenSUSE := by
      simp only [Config.families, List.mem_cons, List.mem_singleton, List.not_mem_nil,
        or_false] at hmem ⊢
      tauto
    rcases hg with hg | rfl | rfl | rfl | hg | rfl
    · rw [formatFamilyAndOSVer_of_major c hc family osVer m hg hm] at h
      cases h
      exact formatFamilyAndOSVer_of_major c hc _ _ _ hg (major_idem osVer _ hm)
    · rw [(formatFamilyAndOSVer_of_alias c hc osVer m hm).1] at h
      cases h
      exact formatFamilyAndOSVer_of_major c hc _ _ _ (by simp) (major_idem osVer _ hm)
    · rw [(formatFamilyAndOSVer_of_alias c hc osVer m hm).2] at h
      cases h
      exact formatFamilyAndOSVer_of_major c hc _ _ _ (by simp) (major_idem osVer _ hm)
    · rw [formatFamilyAndOSVer_of_amazon c hc] at h
      cases ha : getAmazonLinuxVer osVer with
      | error p =>
        rw [ha, error_bind] at h
        cases h
      | ok r =>
        rw [ha, ok_bind] at h
        cases h
        rw [formatFamilyAndOSVer_of_amazon c hc, getAmazonLinuxVer_idem osVer _ ha, ok_bind]
    · rw [formatFamilyAndOSVer_of_majorDotMinor c hc family osVer d hg hd] at h
      cases h
      exact formatFamilyAndOSVer_of_majorDotMinor c hc _ _ _ hg (majorDotMinor_idem osVer _ hd)
    · rw [formatFamilyAndOSVer_of_opensuse c hc osVer d hd] at h
      by_cases ht : osVer = "tumbleweed".toList
      · rw [if_pos ht] at h
        cases h
        obtain ⟨d', hd'⟩ := exists_majorDotMinor osVer
        rw [formatFamilyAndOSVer_of_opensuse c hc osVer d' hd', if_pos ht]
      · rw [if_neg ht] at h
        cases h
        rw [formatFamilyAndOSVer_of_opensuse c hc _ _ (majorDotMinor_idem osVer _ hd)]
        simp
  · rcases formatFamilyAndOSVer_cases c family osVer with
      ⟨_, hr⟩ | ⟨h', _⟩ | ⟨h', _⟩ | ⟨h', _, _⟩ | ⟨h', _⟩
    · rw [hr] at h
      cases h
    · exact absurd h' hmem
    · exact absurd h' hmem
    · exact absurd (by simp [Config.families, h']) hmem
    · exact absurd (by simp [Config.families, h']) hmem

/-- C17 at the family names of the spec: centos "7.9.2009" is normalised to
redhat "7", which is normalised to itself. -/
theorem formatFamilyAndOSVer_idempotent_witness :
    specConfig.Distinct ∧
    formatFamilyAndOSVer specConfig "centos".toList "7.9.2009".toList =
      .ok ("redhat".toList, "7".toList, none) ∧
    formatFamilyAndOSVer specConfig "redhat".toList "7".toList =
      .ok ("redhat".toList, "7".toList, none) :=
  ⟨by decide, by decide,
    formatFamilyAndOSVer_idempotent specConfig (by decide) "centos".toList "7.9.2009".toList
      "redhat".toList "7".toList (by decide)⟩

end GovalDictionary
